import Mathlib

/-!
# Verification of `twitter-articlenator` (shallow embedding)

This file embeds the pure control flow and string processing of the
`twitter_articlenator` Python package into Lean 4 and proves the
behavioural properties stated about it.

Conventions of the embedding:

* Python strings are Lean `String`s; most character-level processing works
  on `List Char` obtained via `String.toList`.
* Python's `re` module uses Unicode character classes (`\w`, `\d`, `\s`).
  All inputs relevant here are URLs, filenames and titles; the embedding
  uses the ASCII reading of those classes (`Char.isAlphanum`, `Char.isDigit`,
  ASCII whitespace).  Where a Unicode normalisation step
  (`unicodedata.normalize("NFKD", ...)`) precedes an
  `encode("ascii","ignore")` filter, the normalisation is modelled as the
  identity: the theorems below are quantified over *all* input strings, so
  they in particular cover every string an NFKD normalisation can produce,
  and the properties proved do not depend on which ASCII characters survive.
* Exceptions become `Except`/`Option` values; third-party calls that can
  fail (HTTP fetches, PDF rendering, the live cookie check) are modelled as
  oracle arguments of type `Except String _` supplied by the environment.
* Filesystem effects are recorded as explicit event lists so that "nothing
  was written" is a provable statement.
-/

set_option autoImplicit false

namespace Articlenator

/-! ## Data model (`sources/base.py`)

`Article` is the dataclass produced by every content source.  The
`published_at : datetime | None` field is modelled as an optional abstract
timestamp; none of the verified properties inspect it. -/

structure Article where
  title : String
  author : String
  content : String
  published_at : Option Nat
  source_url : String
  source_type : String
  deriving Repr, DecidableEq

/-! ## Content-source resolution (`sources/__init__.py`, `twitter_playwright.py`, `web.py`) -/

/-- ASCII reading of Python's `\w` regex class (`[A-Za-z0-9_]`). -/
def isWordChar (c : Char) : Bool :=
  c.isAlphanum || c = '_'

/-- Match a literal string prefix; return the rest of the input on success. -/
def matchLit : List Char → List Char → Option (List Char)
  | [], rest => some rest
  | _ :: _, [] => none
  | p :: ps, c :: cs => if p = c then matchLit ps cs else none

/-- Match one-or-more characters satisfying `p` (greedy), returning the rest. -/
def matchMany1 (p : Char → Bool) : List Char → Option (List Char)
  | [] => none
  | c :: cs => if p c then some (cs.dropWhile p) else none

/-- Match an optional literal prefix (never fails). -/
def matchOpt (lit : List Char) (l : List Char) : List Char :=
  match matchLit lit l with
  | some rest => rest
  | none => l

namespace TwitterPlaywrightSource

/-- Prefix matcher for the compiled regex
`https?://(?:www\.)?(?:twitter\.com|x\.com)/(\w+)/status/(\d+)`
used with `re.match` (anchored at the start only).  Greedy matching of `\w+`
needs no backtracking because `/` is not a word character. -/
def twitterUrlMatch (l : List Char) : Bool :=
  match matchLit "http".toList l with
  | none => false
  | some l₁ =>
    let l₂ := matchOpt "s".toList l₁
    match matchLit "://".toList l₂ with
    | none => false
    | some l₃ =>
      let l₄ := matchOpt "www.".toList l₃
      let host : Option (List Char) :=
        match matchLit "twitter.com".toList l₄ with
        | some r => some r
        | none => matchLit "x.com".toList l₄
      match host with
      | none => false
      | some l₅ =>
        match matchLit "/".toList l₅ with
        | none => false
        | some l₆ =>
          match matchMany1 isWordChar l₆ with
          | none => false
          | some l₇ =>
            match matchLit "/status/".toList l₇ with
            | none => false
            | some l₈ => (matchMany1 Char.isDigit l₈).isSome

/-- `TwitterPlaywrightSource.can_handle`: false for empty URLs, otherwise
whether `TWITTER_URL_PATTERN` matches a prefix of the URL. -/
def can_handle (url : String) : Bool :=
  if url = "" then false
  else twitterUrlMatch url.toList

end TwitterPlaywrightSource

namespace WebArticleSource

/-- Characters allowed in a URL scheme after the leading letter
(`urllib.parse`: alphanumerics, `+`, `-`, `.`). -/
def isSchemeChar (c : Char) : Bool :=
  c.isAlphanum || c = '+' || c = '-' || c = '.'

/-- Model of `urllib.parse.urlparse` restricted to the `scheme` and `netloc`
components: the scheme is a leading `[A-Za-z][A-Za-z0-9+.-]*` before `:`
(returned lowercased), and the netloc is the run after `//` up to the next
`/`, `?` or `#`. -/
def urlparseSchemeNetloc (url : String) : String × String :=
  let l := url.toList
  let parse : List Char × List Char :=
    match l.findIdx? (· = ':') with
    | none => ([], l)
    | some i =>
      let schemePart := l.take i
      match schemePart with
      | [] => ([], l)
      | c :: cs =>
        if c.isAlpha && cs.all isSchemeChar then
          (schemePart.map Char.toLower, l.drop (i + 1))
        else ([], l)
  let (scheme, rest) := parse
  let netloc : List Char :=
    match matchLit "//".toList rest with
    | some r => r.takeWhile (fun c => !(c = '/' || c = '?' || c = '#'))
    | none => []
  (String.mk scheme, String.mk netloc)

/-- The domain tuple excluded by `WebArticleSource.can_handle`. -/
def twitterDomains : List String :=
  ["twitter.com", "x.com", "www.twitter.com", "www.x.com"]

/-- `WebArticleSource.can_handle`: the URL parses with an `http`/`https`
scheme, its netloc is not a Twitter domain (case-insensitively), and the
netloc is non-empty. -/
def can_handle (url : String) : Bool :=
  if url = "" then false
  else
    let (scheme, netloc) := urlparseSchemeNetloc url
    if !(scheme = "http" || scheme = "https") then false
    else if twitterDomains.contains (String.mk (netloc.toList.map Char.toLower)) then false
    else netloc ≠ ""

end WebArticleSource

/-- Tags for the concrete source classes registered in `_SOURCES`. -/
inductive SourceTag where
  | twitter
  | web
  deriving Repr, DecidableEq

/-- `_SOURCES`: the registered sources in priority order, each paired with
its `can_handle` predicate. -/
def SOURCES : List (SourceTag × (String → Bool)) :=
  [(SourceTag.twitter, TwitterPlaywrightSource.can_handle),
   (SourceTag.web, WebArticleSource.can_handle)]

/-- Iteration of `get_source_for_url` over an arbitrary candidate list:
instantiate each class and return the first whose `can_handle` accepts. -/
def findSource (url : String) : List (SourceTag × (String → Bool)) → Option SourceTag
  | [] => none
  | (tag, canHandle) :: rest =>
    if canHandle url then some tag else findSource url rest

/-- `get_source_for_url`: try the registered sources in order and return the
first match (the instantiation with filtered kwargs does not affect
`can_handle`, which only reads the URL). -/
def get_source_for_url (url : String) : Option SourceTag :=
  findSource url SOURCES

/-! ## PDF generation (`pdf/generator.py`) -/

/-- `MAX_SLUG_LENGTH`: maximum slug length for filenames. -/
def MAX_SLUG_LENGTH : Nat := 80

/-- `MAX_CONTENT_SIZE`: maximum combined content size in bytes (500 MB). -/
def MAX_CONTENT_SIZE : Nat := 500000000

/-- ASCII reading of Python's `\s` class: space, tab, newline, carriage
return, vertical tab, form feed.  After the `encode("ascii","ignore")`
filter every character is ASCII, where the Unicode and ASCII readings of
`\s` agree. -/
def isPySpace (c : Char) : Bool :=
  c = ' ' || c = '\t' || c = '\n' || c = '\r' || c = '\x0b' || c = '\x0c'

/-- Characters the slug keeps: the regex class `[a-z0-9\-]`. -/
def isSlugChar (c : Char) : Bool :=
  ('a' ≤ c && c ≤ 'z') || c.isDigit || c = '-'

/-- `encode("ascii", "ignore")`: drop every non-ASCII code point. -/
def asciiIgnore (l : List Char) : List Char :=
  l.filter (fun c => c.toNat < 128)

/-- `re.sub(r"\s+", "-", s)`: replace each maximal whitespace run by a
single hyphen.  The flag records whether the previous character was part of
a whitespace run. -/
def squeezeWs : Bool → List Char → List Char
  | _, [] => []
  | inRun, c :: cs =>
    if isPySpace c then
      if inRun then squeezeWs true cs else '-' :: squeezeWs true cs
    else c :: squeezeWs false cs

/-- `re.sub(r"-+", "-", s)`: collapse each maximal hyphen run to a single
hyphen.  The flag records whether the previous kept character was a
hyphen. -/
def squeezeHyphens : Bool → List Char → List Char
  | _, [] => []
  | prev, c :: cs =>
    if c = '-' then
      if prev then squeezeHyphens true cs else '-' :: squeezeHyphens true cs
    else c :: squeezeHyphens false cs

/-- `s.strip("-")` on a character list. -/
def stripHyphens (l : List Char) : List Char :=
  ((l.dropWhile (· = '-')).reverse.dropWhile (· = '-')).reverse

/-- The truncation step: `slug[:MAX_SLUG_LENGTH].rstrip("-")` when the slug
is longer than `MAX_SLUG_LENGTH`. -/
def truncateSlug (l : List Char) : List Char :=
  if MAX_SLUG_LENGTH < l.length then
    ((l.take MAX_SLUG_LENGTH).reverse.dropWhile (· = '-')).reverse
  else l

/-- The slug pipeline of `_slugify_title` up to (but excluding) the final
empty-slug fallback.  The leading `unicodedata.normalize("NFKD", ...)` is
modelled as the identity (see the header note): the immediately following
`encode("ascii","ignore")` step is the embedding's entry point, and every
theorem below quantifies over all input strings, hence over all NFKD
outputs. -/
def slugCore (title : String) : List Char :=
  truncateSlug (stripHyphens (squeezeHyphens false
    ((squeezeWs false ((asciiIgnore title.toList).map Char.toLower)).filter isSlugChar)))

/-- `_slugify_title`: slug pipeline plus the `"article"` fallback for an
empty slug. -/
def slugify_title (title : String) : String :=
  let s := slugCore title
  if s.isEmpty then "article" else String.mk s

/-- Filesystem effects of `generate_combined_pdf`, recorded explicitly so
that "no PDF file is written" is provable. -/
inductive FsEvent where
  | mkdirOutput (dir : String)
  | writePdf (path : String)
  deriving Repr, DecidableEq

/-- Errors raised by `generate_combined_pdf`: `ValueError` for an empty
article list, `ContentTooLargeError` (with its `size` and `max_size`
fields) for oversized content. -/
inductive GenError where
  | valueError (msg : String)
  | contentTooLarge (size : Nat) (maxSize : Nat)
  deriving Repr, DecidableEq

/-- `sum(len(a.content.encode("utf-8")) for a in articles)`. -/
def totalContentSize (articles : List Article) : Nat :=
  (articles.map (fun a => a.content.utf8ByteSize)).sum

/-- `generate_combined_pdf`: raise `ValueError` on an empty list, raise
`ContentTooLargeError` when the combined UTF-8 content size exceeds
`MAX_CONTENT_SIZE`, otherwise create the output directory, build the
filename from the slug of the first title (with an `-and-N-more` suffix for
multiple articles) and the current date, write one PDF there and return its
path.  `today` stands for `datetime.now().strftime('%Y%m%d')`; the
WeasyPrint rendering call is modelled as succeeding. -/
def generate_combined_pdf (articles : List Article) (outputDir : String)
    (today : String) : List FsEvent × Except GenError String :=
  match articles with
  | [] => ([], Except.error (GenError.valueError "At least one article is required"))
  | a :: rest =>
    let total := totalContentSize (a :: rest)
    if MAX_CONTENT_SIZE < total then
      ([], Except.error (GenError.contentTooLarge total MAX_CONTENT_SIZE))
    else
      let slug :=
        if rest.isEmpty then slugify_title a.title
        else slugify_title (a.title ++ "-and-" ++ toString rest.length ++ "-more")
      let filename := slug ++ "_" ++ today ++ ".pdf"
      let path := outputDir ++ "/" ++ filename
      ([FsEvent.mkdirOutput outputDir, FsEvent.writePdf path], Except.ok path)

/-! ## Batch conversion (`routes/api.py`, `convert`)

The fetch loop is embedded after URL validation and source resolution have
succeeded: the environment supplies, for each URL in order, the outcome of
`run_async(source.fetch(url))` as `Except String Article` (an exception is
its `str(e)` message), and the outcome of `generate_combined_pdf` as an
oracle from the fetched articles to a filename. -/

/-- Lines 108–127 of `api.py`: iterate over the URLs, appending a success
to `articles` and a caught exception to `errors` as `(url, message)`. -/
def fetchLoop : List (String × Except String Article) →
    List (String × Article) × List (String × String)
  | [] => ([], [])
  | (url, outcome) :: rest =>
    let (arts, errs) := fetchLoop rest
    match outcome with
    | Except.ok article => ((url, article) :: arts, errs)
    | Except.error e => (arts, (url, e) :: errs)

/-- `"\n".join(f"- {url}: {error}" for each per-URL error)`. -/
def errorDetails (errs : List (String × String)) : String :=
  String.intercalate "\n" (errs.map (fun e => "- " ++ e.1 ++ ": " ++ e.2))

/-- The JSON responses `convert` can produce after source resolution. -/
inductive ConvertResponse where
  | httpError (status : Nat) (message : String)
  | success (filename : String) (articles : List (String × Article))
      (errors : Option (List (String × String)))
      (total succeeded failed : Nat)
  deriving Repr, DecidableEq

/-- Lines 108–169 of `api.py`: run the fetch loop; when nothing succeeded
and something failed, answer HTTP 500 with the concatenated per-URL
messages; otherwise generate the combined PDF (oracle `pdfOutcome`) and
answer the success payload, echoing the per-URL errors (or `None`). -/
def convertCore (items : List (String × Except String Article))
    (pdfOutcome : List Article → Except String String) : ConvertResponse :=
  let (articles, errors) := fetchLoop items
  if articles.isEmpty && !errors.isEmpty then
    ConvertResponse.httpError 500 ("All conversions failed:\n" ++ errorDetails errors)
  else
    match pdfOutcome (articles.map Prod.snd) with
    | Except.ok filename =>
      ConvertResponse.success filename articles
        (if errors.isEmpty then none else some errors)
        (articles.length + errors.length) articles.length errors.length
    | Except.error e =>
      ConvertResponse.httpError 500 ("PDF generation failed: " ++ e)

/-! ## PDF download route (`routes/pages.py`, `download`) -/

/-- Characters kept by werkzeug's `_filename_ascii_strip_re`
(`[^A-Za-z0-9_.-]` is removed). -/
def isFilenameKeep (c : Char) : Bool :=
  c.isAlphanum || c = '_' || c = '.' || c = '-'

/-- Characters stripped from both ends by werkzeug's final `.strip("._")`. -/
def isDotUnderscore (c : Char) : Bool :=
  c = '.' || c = '_'

/-- Character pipeline of `werkzeug.utils.secure_filename` on POSIX:
NFKD-normalise and drop non-ASCII (normalisation modelled as identity, see
the header note), replace `os.sep` (`/`) with a space,
`"_".join(filename.split())`, delete every character outside
`[A-Za-z0-9_.-]`, and strip leading/trailing `.` and `_`.  The Windows
special-device branch does not apply. -/
def secureCore (filename : String) : List Char :=
  (((((((asciiIgnore filename.toList).map
      (fun c => if c = '/' then ' ' else c)).splitOnP
      isPySpace).filter (fun w => !w.isEmpty)).intersperse
      ['_']).flatten.filter isFilenameKeep).dropWhile
      isDotUnderscore).reverse.dropWhile isDotUnderscore |>.reverse

/-- `werkzeug.utils.secure_filename` (model): the sanitised character
pipeline packed back into a string. -/
def secure_filename (filename : String) : String :=
  String.mk (secureCore filename)

/-- `s.endswith(".pdf")`. -/
def endsWithPdf (s : String) : Bool :=
  ".pdf".toList.isSuffixOf s.toList

/-- Responses of the `download` page route. -/
inductive PageResponse where
  | badRequest (msg : String)
  | notFound (msg : String)
  | sendFile (dir : String) (name : String)
  deriving Repr, DecidableEq

/-- `GET /download/<filename>` (`pages.py` 23–46): sanitise with
`secure_filename`, reject non-`.pdf` names (400), reject names the
sanitiser changed or emptied (400), reject missing files (404), otherwise
serve the file from the configured output directory.  `existsFile n` is the
oracle for `(output_dir / n).exists()`. -/
def download (outputDir : String) (existsFile : String → Bool)
    (filename : String) : PageResponse :=
  let safe := secure_filename filename
  if !endsWithPdf safe then
    PageResponse.badRequest "Only PDF files can be downloaded"
  else if safe = "" || safe ≠ filename then
    PageResponse.badRequest "Invalid filename"
  else if !existsFile safe then
    PageResponse.notFound "File not found"
  else
    PageResponse.sendFile outputDir safe

/-! ## Cookie validation (`config.validate_cookies` and
`routes/api.py`, `validate_cookies_endpoint`) -/

/-- Python `str.strip()` (no argument): drop whitespace from both ends. -/
def pyStrip (l : List Char) : List Char :=
  ((l.dropWhile isPySpace).reverse.dropWhile isPySpace).reverse

/-- `part.strip()` / name–value extraction used by the cookie parsers in
`api.py`: split on `;`, keep parts containing `=`, split each at the first
`=` (`split("=", 1)`), strip name and value. -/
def parseCookiePairs (s : String) : List (String × String) :=
  (s.toList.splitOnP (· = ';')).filterMap (fun rawPart =>
    let part := pyStrip rawPart
    match part.findIdx? (· = '=') with
    | none => none
    | some i =>
      some (String.mk (pyStrip (part.take i)), String.mk (pyStrip (part.drop (i + 1)))))

/-- Python `dict` assignment in a loop keeps the last value for a repeated
name. -/
def cookieGet (pairs : List (String × String)) (name : String) : Option String :=
  (pairs.reverse.find? (fun p => p.1 = name)).map Prod.snd

/-- The shape of the dict returned by `validate_cookies`. -/
structure ValidationResult where
  valid : Bool
  status : String
  message : String
  deriving Repr, DecidableEq

/-- Modelled from the spec: minimum length of a required cookie value.
`validate_cookies` is absent from the `config.py` variant in `src/`, which
states only that a required value may be "too short"; the repository's
integration tests accept 30-character values and reject 4–5-character
ones, so the threshold is modelled as 20. -/
def MIN_COOKIE_VALUE_LENGTH : Nat := 20

/-- Whether a required cookie is present with a long-enough value. -/
def requiredCookieOk (pairs : List (String × String)) (name : String) : Bool :=
  match cookieGet pairs name with
  | some v => MIN_COOKIE_VALUE_LENGTH ≤ v.length
  | none => false

/-- Modelled from the spec: `config.validate_cookies`, imported by
`routes/api.py` but missing from the `config.py` variant under `src/`.
Per the spec it distinguishes "not configured" (no cookie string),
"invalid" (one of the two required names `auth_token`/`ct0` missing or its
value too short) and "valid" (otherwise); the exact message texts are
immaterial to the claims. -/
def validate_cookies (cookies : Option String) : ValidationResult :=
  match cookies with
  | none => ⟨false, "not_configured", "No cookies configured"⟩
  | some s =>
    let pairs := parseCookiePairs s
    if requiredCookieOk pairs "auth_token" && requiredCookieOk pairs "ct0" then
      ⟨true, "valid", "Cookie format is valid"⟩
    else
      ⟨false, "invalid", "Cookies are missing required values or they are too short"⟩

/-- `POST /api/cookies/validate` (`api.py` 172–231): validate the format;
on a format-invalid result return it immediately; only when the `live`
query parameter is `"true"` and cookies were provided, perform the live
check against the upstream verification endpoint (oracle `liveOutcome`:
HTTP status code and screen name, or a network error).  Returns the result
together with whether the live check was performed. -/
def validate_cookies_endpoint (cookies : Option String) (liveParam : Bool)
    (liveOutcome : Except String (Nat × String)) : ValidationResult × Bool :=
  let result := validate_cookies cookies
  if !result.valid then (result, false)
  else if liveParam && cookies.isSome then
    match liveOutcome with
    | Except.ok (statusCode, screenName) =>
      if statusCode = 200 then
        ({ result with message := "Cookies valid — authenticated as @" ++ screenName }, true)
      else
        (⟨false, "expired",
          "Cookies have expired or are invalid. Please get fresh cookies from Twitter."⟩, true)
    | Except.error _ =>
      ({ result with
          message := result.message ++ " (Could not verify live — network error)" }, true)
  else (result, false)

/-! ## Bookmark scraping (`sources/bookmarks.py`) -/

/-- `MAX_EMPTY_SCROLLS`: consecutive scrolls with no new bookmark before
the collection loop stops. -/
def MAX_EMPTY_SCROLLS : Nat := 3

/-- `BookmarkEntry` dataclass. -/
structure BookmarkEntry where
  tweet_id : String
  tweet_url : String
  author : String
  display_name : String
  text_preview : String
  article_urls : List String
  is_article : Bool
  bookmarked_at : Option String
  deriving Repr, DecidableEq

/-- State of the collection loop in `BookmarkScraper.scrape`
(lines 200–229): the accumulated entries, the `seen_ids` set (held as the
insertion-ordered list of ids), the `empty_scroll_count`, and the trace of
`on_bookmark(entry, len(bookmarks))` invocations. -/
structure ScrapeState where
  bookmarks : List BookmarkEntry
  seen : List String
  emptyScrolls : Nat
  calls : List (BookmarkEntry × Nat)
  deriving Repr, DecidableEq

/-- Initial loop state: `bookmarks = []`, `seen_ids = set()`,
`empty_scroll_count = 0`. -/
def initScrapeState : ScrapeState := ⟨[], [], 0, []⟩

/-- One iteration of the inner `for tweet_el in tweet_elements` body:
`_extract_bookmark` may return `None` (skipped); an entry whose id is in
`seen_ids` is skipped; otherwise it is recorded and `on_bookmark(entry,
len(bookmarks))` fires with the new running total. -/
def addEntry (st : ScrapeState) (oe : Option BookmarkEntry) : ScrapeState :=
  match oe with
  | none => st
  | some e =>
    if e.tweet_id ∈ st.seen then st
    else
      { st with
          seen := st.seen ++ [e.tweet_id]
          bookmarks := st.bookmarks ++ [e]
          calls := st.calls ++ [(e, st.bookmarks.length + 1)] }

/-- One round of the outer `while` loop body: process every visible tweet
element, then reset `empty_scroll_count` to zero when at least one new
entry was collected, and increment it otherwise. -/
def processRound (visible : List (Option BookmarkEntry)) (s : ScrapeState) : ScrapeState :=
  let s' := visible.foldl addEntry s
  if s.bookmarks.length < s'.bookmarks.length then { s' with emptyScrolls := 0 }
  else { s' with emptyScrolls := s.emptyScrolls + 1 }

/-- The `while empty_scroll_count < MAX_EMPTY_SCROLLS` loop.  `rounds i` is
the list of (extracted) tweet elements visible after the `i`-th scroll;
`fuel` bounds the number of iterations the environment is willing to run,
with `none` meaning the loop is still running when the fuel ends. -/
def scrapeLoop (rounds : Nat → List (Option BookmarkEntry)) :
    Nat → ScrapeState → Nat → Option ScrapeState
  | _, s, 0 => if MAX_EMPTY_SCROLLS ≤ s.emptyScrolls then some s else none
  | i, s, fuel + 1 =>
    if MAX_EMPTY_SCROLLS ≤ s.emptyScrolls then some s
    else scrapeLoop rounds (i + 1) (processRound (rounds i) s) fuel

/-- `BookmarkScraper.scrape` (collection part): run the loop from the
initial state and return the collected entries. -/
def scrape (rounds : Nat → List (Option BookmarkEntry)) (fuel : Nat) :
    Option (List BookmarkEntry) :=
  (scrapeLoop rounds 0 initScrapeState fuel).map ScrapeState.bookmarks

/-- The tweet ids carried by one round's extracted elements. -/
def roundIds (visible : List (Option BookmarkEntry)) : List String :=
  visible.filterMap (fun oe => oe.map BookmarkEntry.tweet_id)

/-- Pure iteration of the round body (no stop check), used to name the
loop's intermediate states. -/
def iterRounds (rounds : Nat → List (Option BookmarkEntry)) :
    Nat → Nat → ScrapeState → ScrapeState
  | _, 0, s => s
  | i, n + 1, s => iterRounds rounds (i + 1) n (processRound (rounds i) s)

/-! ## Browser pool (`sources/browser_pool.py`)

The pool is driven by one coroutine at a time (the application marshals
every async call onto a single background loop), so its behaviour is the
sequential execution of `acquire` / `release` steps; the environment may
additionally disconnect a browser at any point.  Browsers are identified by
creation order; `connected` status is tracked in the state, so
"live" means created, currently connected and not closed. -/

/-- Pool state: `maxB` is `max_browsers`; `queue` is the id queue
(`asyncio.Queue(maxsize=max_browsers)`); `count` is `_browser_count`;
`held` are browsers handed to clients and not yet released; `live` are the
connected browsers (`is_connected()` true); `nextId` numbers creations. -/
structure PoolState where
  maxB : Nat
  queue : List Nat
  count : Nat
  held : List Nat
  live : List Nat
  nextId : Nat
  deriving Repr, DecidableEq

/-- `BrowserPool.__init__(max_browsers)`. -/
def initPool (maxBrowsers : Nat) : PoolState :=
  ⟨maxBrowsers, [], 0, [], [], 0⟩

/-- `_create_browser`: launch a browser (it starts connected and is handed
to the caller) and increment `_browser_count`. -/
def createBrowser (s : PoolState) : PoolState × Nat :=
  ({ s with
      count := s.count + 1
      held := s.nextId :: s.held
      live := s.nextId :: s.live
      nextId := s.nextId + 1 }, s.nextId)

/-- `acquire` (lines 149–185): try `get_nowait` and return a connected
pooled browser; on a disconnected one decrement the count and fall
through; create a new browser while `_browser_count < max_browsers`;
otherwise `await get()` — modelled as taking the next queued browser or,
when the queue is empty, blocking (`none`). -/
def acquire (s : PoolState) : Option (PoolState × Nat) :=
  let afterPop : PoolState → Option (PoolState × Nat) := fun t =>
    if t.count < t.maxB then some (createBrowser t)
    else
      match t.queue with
      | b :: rest =>
        if b ∈ t.live then
          some ({ t with queue := rest, held := b :: t.held }, b)
        else
          some (createBrowser { t with queue := rest, count := t.count - 1 })
      | [] => none
  match s.queue with
  | b :: rest =>
    if b ∈ s.live then
      some ({ s with queue := rest, held := b :: s.held }, b)
    else
      afterPop { s with queue := rest, count := s.count - 1 }
  | [] => afterPop s

/-- `release` (lines 187–205): a disconnected browser is dropped with a
count decrement; a connected one is returned to the queue by `put_nowait`,
or closed (count decrement, no longer live) when the queue is full.
`get_context` guarantees a client releases exactly the browser it
acquired, so a release of a browser that is not held is a no-op here. -/
def release (s : PoolState) (b : Nat) : PoolState :=
  if b ∉ s.held then s
  else if b ∉ s.live then
    { s with held := s.held.erase b, count := s.count - 1 }
  else if s.queue.length < s.maxB then
    { s with held := s.held.erase b, queue := s.queue ++ [b] }
  else
    { s with held := s.held.erase b, count := s.count - 1, live := s.live.erase b }

/-- Events driving the pool: a client acquires (a blocked acquire leaves
the state unchanged), a client releases browser `b`, or the environment
disconnects browser `b` (its process dies). -/
inductive PoolEvent where
  | acquireEv
  | releaseEv (b : Nat)
  | disconnectEv (b : Nat)
  deriving Repr, DecidableEq

/-- One step of pool execution. -/
def poolStep (s : PoolState) (e : PoolEvent) : PoolState :=
  match e with
  | PoolEvent.acquireEv =>
    match acquire s with
    | some (s', _) => s'
    | none => s
  | PoolEvent.releaseEv b => release s b
  | PoolEvent.disconnectEv b => { s with live := s.live.erase b }

/-- Run a sequence of pool events from the freshly constructed pool. -/
def runPool (maxBrowsers : Nat) (events : List PoolEvent) : PoolState :=
  events.foldl poolStep (initPool maxBrowsers)

/-! ## Registered HTTP routes (`app.py`, `routes/api.py`, `routes/pages.py`)

`create_app` registers `pages_bp` then `api_bp`; the blueprints' route
decorators, in definition order, give the full rule set (the `api`
blueprint adds the `/api` url prefix). -/

/-- Routes of `pages_bp`, with their methods. -/
def pagesRoutes : List (String × List String) :=
  [("/", ["GET"]),
   ("/setup", ["GET"]),
   ("/download/<filename>", ["GET"])]

/-- Routes of `api_bp` (url prefix `/api`), with their methods. -/
def apiRoutes : List (String × List String) :=
  [("/api/health", ["GET"]),
   ("/api/convert", ["POST"]),
   ("/api/cookies/validate", ["POST"]),
   ("/api/convert/stream", ["POST"]),
   ("/api/bookmarks/fetch", ["POST"]),
   ("/api/bookmarks/convert", ["POST"])]

/-- All routes registered on the Flask app. -/
def registeredRoutes : List (String × List String) :=
  pagesRoutes ++ apiRoutes

/-- A concrete article used by the witness theorems. -/
def sampleArticle : Article :=
  ⟨"T", "a", "c", none, "u1", "web"⟩

/-- Concrete bookmark entries used by the witness theorems. -/
def sampleEntry1 : BookmarkEntry :=
  ⟨"1", "u", "a", "d", "t", [], false, none⟩

/-- A second concrete bookmark entry. -/
def sampleEntry2 : BookmarkEntry :=
  ⟨"2", "u", "a", "d", "t", [], false, none⟩

/-- A concrete round sequence for the witness theorems: round 0 shows both
entries (one of them twice, plus a failed extraction), and every later
round repeats the first entry. -/
def sampleRounds : Nat → List (Option BookmarkEntry)
  | 0 => [some sampleEntry1, none, some sampleEntry2, some sampleEntry1]
  | _ + 1 => [some sampleEntry1]

/-- Specification predicate: two adjacent characters are never both
hyphens. -/
def hyphenRel (a b : Char) : Prop := ¬(a = '-' ∧ b = '-')

instance : DecidableRel hyphenRel := fun a b =>
  inferInstanceAs (Decidable ¬(a = '-' ∧ b = '-'))

/-- Specification invariant of the scrape loop: collected tweet ids are
pairwise distinct, every collected entry's id has been recorded in
`seen_ids`, and the `on_bookmark` call trace pairs the collected entries
with their 1-based positions. -/
def ScrapeInv (s : ScrapeState) : Prop :=
  (s.bookmarks.map BookmarkEntry.tweet_id).Nodup ∧
  (∀ b ∈ s.bookmarks, b.tweet_id ∈ s.seen) ∧
  s.calls = s.bookmarks.zip (List.range' 1 s.bookmarks.length)

/-- Specification invariant of the browser pool: the queued and held
browser ids are pairwise distinct, `_browser_count` counts them, every
connected browser is queued or held, ids are below the creation counter,
and the count never exceeds `max_browsers`. -/
def PoolInv (s : PoolState) : Prop :=
  (s.queue ++ s.held).Nodup ∧
  s.count = (s.queue ++ s.held).length ∧
  s.live.Nodup ∧
  (∀ b ∈ s.live, b ∈ s.queue ++ s.held) ∧
  (∀ b ∈ s.queue ++ s.held, b < s.nextId) ∧
  s.count ≤ s.maxB

/-! # Theorems -/

/-! ## Helper lemmas about the string-processing primitives -/

theorem head?_dropWhile_false {p : Char → Bool} :
    ∀ {l : List Char} {x : Char}, (l.dropWhile p).head? = some x → p x = false := by
  intro l
  induction l with
  | nil => intro x h; cases h
  | cons c cs ih =>
    intro x h
    by_cases hc : p c
    · rw [List.dropWhile_cons_of_pos hc] at h
      exact ih h
    · rw [List.dropWhile_cons_of_neg hc] at h
      cases h
      exact Bool.of_not_eq_true hc

/-- `l.reverse.dropWhile p |>.reverse` (strip from the right) leaves a
prefix of `l`. -/
theorem rstrip_append (p : Char → Bool) (l : List Char) :
    ∃ t, l = (l.reverse.dropWhile p).reverse ++ t := by
  obtain ⟨t', ht⟩ := List.dropWhile_suffix (l := l.reverse) p
  refine ⟨t'.reverse, ?_⟩
  have := congrArg List.reverse ht
  simpa using this.symm

theorem head?_of_append_eq {l t : List Char} {x : Char}
    (h : l.head? = some x) : (l ++ t).head? = some x := by
  cases l with
  | nil => cases h
  | cons c cs => exact h

theorem head?_rstrip {p : Char → Bool} {l : List Char} {x : Char}
    (h : ((l.reverse.dropWhile p).reverse).head? = some x) : l.head? = some x := by
  obtain ⟨t, ht⟩ := rstrip_append p l
  rw [ht]
  exact head?_of_append_eq h

theorem getLast?_rstrip_false {p : Char → Bool} {l : List Char} {x : Char}
    (h : ((l.reverse.dropWhile p).reverse).getLast? = some x) : p x = false := by
  rw [List.getLast?_reverse] at h
  exact head?_dropWhile_false h

theorem mem_rstrip {p : Char → Bool} {l : List Char} {c : Char}
    (h : c ∈ (l.reverse.dropWhile p).reverse) : c ∈ l := by
  rw [List.mem_reverse] at h
  have := (List.dropWhile_suffix (l := l.reverse) p).sublist.mem h
  rwa [List.mem_reverse] at this

theorem length_rstrip_le (p : Char → Bool) (l : List Char) :
    ((l.reverse.dropWhile p).reverse).length ≤ l.length := by
  have h := (List.dropWhile_suffix (l := l.reverse) p).sublist.length_le
  simpa using h

theorem chain'_rstrip {l : List Char} (p : Char → Bool)
    (h : l.Chain' hyphenRel) : ((l.reverse.dropWhile p).reverse).Chain' hyphenRel := by
  have hsym : ∀ a b : Char, hyphenRel a b → hyphenRel b a := by
    intro a b hab ⟨h1, h2⟩; exact hab ⟨h2, h1⟩
  have h1 : l.reverse.Chain' hyphenRel := by
    rw [List.chain'_reverse]
    exact h.imp (fun a b hab => hsym a b hab)
  have h2 : (l.reverse.dropWhile p).Chain' hyphenRel :=
    h1.suffix (List.dropWhile_suffix p)
  rw [List.chain'_reverse]
  exact h2.imp (fun a b hab => hsym a b hab)

theorem head?_take {l : List Char} {n : Nat} {x : Char}
    (h : (l.take n).head? = some x) : l.head? = some x := by
  cases n with
  | zero => cases h
  | succ m =>
    cases l with
    | nil => cases h
    | cons c cs => exact h

/-! ## Lemmas about `squeezeHyphens` -/

theorem mem_squeezeHyphens :
    ∀ (b : Bool) (l : List Char) (c : Char), c ∈ squeezeHyphens b l → c ∈ l := by
  intro b l
  induction l generalizing b with
  | nil => intro c h; cases h
  | cons x xs ih =>
    intro c h
    by_cases hx : x = '-'
    · cases b with
      | true =>
        have h' : c ∈ squeezeHyphens true xs := by simpa [squeezeHyphens, hx] using h
        exact List.mem_cons_of_mem _ (ih true c h')
      | false =>
        have h' : c = '-' ∨ c ∈ squeezeHyphens true xs := by
          simpa [squeezeHyphens, hx] using h
        rcases h' with h' | h'
        · rw [h', hx]; exact List.mem_cons_self _ _
        · exact List.mem_cons_of_mem _ (ih true c h')
    · have h' : c = x ∨ c ∈ squeezeHyphens false xs := by
        simpa [squeezeHyphens, hx] using h
      rcases h' with h' | h'
      · rw [h']; exact List.mem_cons_self _ _
      · exact List.mem_cons_of_mem _ (ih false c h')

theorem head?_squeezeHyphens_true :
    ∀ (l : List Char) (x : Char), (squeezeHyphens true l).head? = some x → x ≠ '-' := by
  intro l
  induction l with
  | nil => intro x h; cases h
  | cons c cs ih =>
    intro x h
    by_cases hc : c = '-'
    · have h' : (squeezeHyphens true cs).head? = some x := by
        simpa [squeezeHyphens, hc] using h
      exact ih x h'
    · have h' : c = x := by simpa [squeezeHyphens, hc] using h
      rw [← h']
      exact hc

theorem chain'_squeezeHyphens :
    ∀ (b : Bool) (l : List Char), (squeezeHyphens b l).Chain' hyphenRel := by
  intro b l
  induction l generalizing b with
  | nil => exact List.chain'_nil
  | cons c cs ih =>
    by_cases hc : c = '-'
    · cases b with
      | true =>
        have he : squeezeHyphens true (c :: cs) = squeezeHyphens true cs := by
          simp [squeezeHyphens, hc]
        rw [he]; exact ih true
      | false =>
        have he : squeezeHyphens false (c :: cs) = '-' :: squeezeHyphens true cs := by
          simp [squeezeHyphens, hc]
        rw [he, List.chain'_cons']
        refine ⟨?_, ih true⟩
        intro y hy
        intro ⟨_, hy'⟩
        exact head?_squeezeHyphens_true cs y hy hy'
    · have he : squeezeHyphens b (c :: cs) = c :: squeezeHyphens false cs := by
        simp [squeezeHyphens, hc]
      rw [he, List.chain'_cons']
      refine ⟨?_, ih false⟩
      intro y _
      intro ⟨hc', _⟩
      exact hc hc'

/-! ## Shape of the slug pipeline stages -/

theorem stripHyphens_props {l : List Char}
    (hmem : ∀ c ∈ l, isSlugChar c = true) (hchain : l.Chain' hyphenRel) :
    (∀ c ∈ stripHyphens l, isSlugChar c = true) ∧
    (stripHyphens l).Chain' hyphenRel ∧
    (∀ x, (stripHyphens l).head? = some x → x ≠ '-') ∧
    (∀ x, (stripHyphens l).getLast? = some x → x ≠ '-') := by
  unfold stripHyphens
  refine ⟨?_, ?_, ?_, ?_⟩
  · intro c hc
    exact hmem c ((List.dropWhile_suffix _).sublist.mem (mem_rstrip hc))
  · exact chain'_rstrip _ (hchain.suffix (List.dropWhile_suffix _))
  · intro x hx
    have h1 := head?_rstrip hx
    have h2 := head?_dropWhile_false h1
    simpa using h2
  · intro x hx
    have h2 := getLast?_rstrip_false hx
    simpa using h2

theorem truncateSlug_props {l : List Char}
    (hmem : ∀ c ∈ l, isSlugChar c = true) (hchain : l.Chain' hyphenRel)
    (hhead : ∀ x, l.head? = some x → x ≠ '-')
    (hlast : ∀ x, l.getLast? = some x → x ≠ '-') :
    (∀ c ∈ truncateSlug l, isSlugChar c = true) ∧
    (truncateSlug l).Chain' hyphenRel ∧
    (∀ x, (truncateSlug l).head? = some x → x ≠ '-') ∧
    (∀ x, (truncateSlug l).getLast? = some x → x ≠ '-') ∧
    (truncateSlug l).length ≤ MAX_SLUG_LENGTH := by
  unfold truncateSlug
  by_cases h80 : MAX_SLUG_LENGTH < l.length
  · rw [if_pos h80]
    refine ⟨?_, ?_, ?_, ?_, ?_⟩
    · intro c hc
      exact hmem c ((List.take_sublist _ _).mem (mem_rstrip hc))
    · exact chain'_rstrip _ (hchain.take MAX_SLUG_LENGTH)
    · intro x hx
      exact hhead x (head?_take (head?_rstrip hx))
    · intro x hx
      have h2 := getLast?_rstrip_false hx
      simpa using h2
    · calc ((l.take MAX_SLUG_LENGTH).reverse.dropWhile _).reverse.length
          ≤ (l.take MAX_SLUG_LENGTH).length := length_rstrip_le _ _
        _ ≤ MAX_SLUG_LENGTH := l.length_take_le _
  · rw [if_neg h80]
    exact ⟨hmem, hchain, hhead, hlast, Nat.not_lt.mp h80⟩

theorem slugCore_props (title : String) :
    (∀ c ∈ slugCore title, isSlugChar c = true) ∧
    (slugCore title).Chain' hyphenRel ∧
    (∀ x, (slugCore title).head? = some x → x ≠ '-') ∧
    (∀ x, (slugCore title).getLast? = some x → x ≠ '-') ∧
    (slugCore title).length ≤ MAX_SLUG_LENGTH := by
  unfold slugCore
  have hmem₂ : ∀ c ∈ (squeezeWs false
      ((asciiIgnore title.toList).map Char.toLower)).filter isSlugChar,
      isSlugChar c = true := fun c hc => List.of_mem_filter hc
  have hmemA : ∀ c ∈ squeezeHyphens false ((squeezeWs false
      ((asciiIgnore title.toList).map Char.toLower)).filter isSlugChar),
      isSlugChar c = true :=
    fun c hc => hmem₂ c (mem_squeezeHyphens _ _ c hc)
  have hchainA := chain'_squeezeHyphens false ((squeezeWs false
      ((asciiIgnore title.toList).map Char.toLower)).filter isSlugChar)
  obtain ⟨hm, hc, hh, hl⟩ := stripHyphens_props hmemA hchainA
  exact truncateSlug_props hm hc hh hl

/-- Claim C3: `get_source_for_url` tries the candidates in the fixed
priority order `[TwitterPlaywrightSource, WebArticleSource]`, returns the
first class whose `can_handle` accepts the URL, and returns `None` exactly
when neither accepts. -/
theorem claim_C3 (u : String) :
    get_source_for_url u =
      (if TwitterPlaywrightSource.can_handle u then some SourceTag.twitter
       else if WebArticleSource.can_handle u then some SourceTag.web
       else none) ∧
    (get_source_for_url u = none ↔
      TwitterPlaywrightSource.can_handle u = false ∧
        WebArticleSource.can_handle u = false) := by
  refine ⟨rfl, ?_⟩
  show findSource u SOURCES = none ↔ _
  simp only [SOURCES, findSource]
  by_cases h₁ : TwitterPlaywrightSource.can_handle u <;>
    by_cases h₂ : WebArticleSource.can_handle u <;> simp [h₁, h₂]

/-- Witness for C3 at concrete URLs: a Twitter status URL resolves to the
Twitter source even though the web source pattern is also registered, a
plain article URL falls through to the web source, and a non-URL resolves
to none. -/
theorem claim_C3_witness :
    get_source_for_url "https://x.com/user/status/123" = some SourceTag.twitter ∧
    get_source_for_url "https://example.com/post" = some SourceTag.web ∧
    get_source_for_url "not a url" = none := by
  refine ⟨?_, ?_, ?_⟩
  · rw [(claim_C3 "https://x.com/user/status/123").1]; decide
  · rw [(claim_C3 "https://example.com/post").1]; decide
  · rw [(claim_C3 "not a url").1]; decide

/-- Claim C2: `generate_combined_pdf` raises `ValueError` on an empty
article list, raises `ContentTooLargeError` when the combined UTF-8 byte
size of the contents exceeds `MAX_CONTENT_SIZE` (500,000,000), and
otherwise writes exactly one PDF into the output directory and returns its
path; in both error cases nothing is written. -/
theorem claim_C2 (articles : List Article) (outputDir today : String) :
    MAX_CONTENT_SIZE = 500000000 ∧
    (articles = [] →
      generate_combined_pdf articles outputDir today =
        ([], Except.error (GenError.valueError "At least one article is required"))) ∧
    (articles ≠ [] → MAX_CONTENT_SIZE < totalContentSize articles →
      generate_combined_pdf articles outputDir today =
        ([], Except.error
            (GenError.contentTooLarge (totalContentSize articles) MAX_CONTENT_SIZE))) ∧
    (articles ≠ [] → totalContentSize articles ≤ MAX_CONTENT_SIZE →
      ∃ filename,
        generate_combined_pdf articles outputDir today =
          ([FsEvent.mkdirOutput outputDir,
            FsEvent.writePdf (outputDir ++ "/" ++ filename)],
            Except.ok (outputDir ++ "/" ++ filename))) ∧
    (∀ e, (generate_combined_pdf articles outputDir today).2 = Except.error e →
      (generate_combined_pdf articles outputDir today).1 = []) := by
  refine ⟨rfl, ?_, ?_, ?_, ?_⟩
  · rintro rfl; rfl
  · intro hne hbig
    match articles, hne with
    | a :: rest, _ =>
      simp only [generate_combined_pdf, if_pos hbig]
  · intro hne hsmall
    match articles, hne with
    | a :: rest, _ =>
      refine ⟨(if rest.isEmpty then slugify_title a.title
        else slugify_title (a.title ++ "-and-" ++ toString rest.length ++ "-more"))
          ++ "_" ++ today ++ ".pdf", ?_⟩
      simp only [generate_combined_pdf, if_neg (Nat.not_lt.mpr hsmall)]
  · intro e he
    match articles with
    | [] => rfl
    | a :: rest =>
      simp only [generate_combined_pdf] at he ⊢
      by_cases hbig : MAX_CONTENT_SIZE < totalContentSize (a :: rest)
      · simp [if_pos hbig]
      · simp [if_neg hbig] at he

/-- Witness for C2 at concrete inputs: a one-article list is written and
returned, and the empty list raises `ValueError`. -/
theorem claim_C2_witness :
    (∃ filename,
      generate_combined_pdf
          [{ title := "My Title", author := "a", content := "hello",
             published_at := none, source_url := "u", source_type := "twitter" }]
          "/out" "20261012" =
        ([FsEvent.mkdirOutput "/out", FsEvent.writePdf ("/out" ++ "/" ++ filename)],
          Except.ok ("/out" ++ "/" ++ filename))) ∧
    generate_combined_pdf [] "/out" "20261012" =
      ([], Except.error (GenError.valueError "At least one article is required")) := by
  constructor
  · exact (claim_C2
      [{ title := "My Title", author := "a", content := "hello",
         published_at := none, source_url := "u", source_type := "twitter" }]
      "/out" "20261012").2.2.2.1 (by simp) (by decide)
  · exact (claim_C2 [] "/out" "20261012").2.1 rfl

/-- Claim C1: the batch-convert fetch loop records each failing URL as a
per-URL `(url, error)` entry while every other URL is still processed (the
successes are exactly the fetchable URLs, in order, and the errors exactly
the failing ones); when nothing succeeded and something failed the endpoint
answers HTTP 500 with the per-URL messages joined as `- url: error` lines;
and the fetched articles are still converted into the combined PDF. -/
theorem claim_C1 (items : List (String × Except String Article))
    (pdfOutcome : List Article → Except String String) :
    (fetchLoop items).1 = items.filterMap (fun p =>
        match p.2 with
        | Except.ok a => some (p.1, a)
        | Except.error _ => none) ∧
    (fetchLoop items).2 = items.filterMap (fun p =>
        match p.2 with
        | Except.ok _ => none
        | Except.error e => some (p.1, e)) ∧
    ((fetchLoop items).1 = [] → (fetchLoop items).2 ≠ [] →
      convertCore items pdfOutcome =
        ConvertResponse.httpError 500
          ("All conversions failed:\n" ++
            String.intercalate "\n"
              ((fetchLoop items).2.map (fun e => "- " ++ e.1 ++ ": " ++ e.2)))) ∧
    (∀ filename, (fetchLoop items).1 ≠ [] →
      pdfOutcome ((fetchLoop items).1.map Prod.snd) = Except.ok filename →
      convertCore items pdfOutcome =
        ConvertResponse.success filename (fetchLoop items).1
          (if (fetchLoop items).2.isEmpty then none else some (fetchLoop items).2)
          ((fetchLoop items).1.length + (fetchLoop items).2.length)
          (fetchLoop items).1.length (fetchLoop items).2.length) := by
  refine ⟨?_, ?_, ?_, ?_⟩
  · induction items with
    | nil => rfl
    | cons p rest ih =>
      obtain ⟨url, outcome⟩ := p
      cases outcome <;> simp [fetchLoop, List.filterMap_cons, ih]
  · induction items with
    | nil => rfl
    | cons p rest ih =>
      obtain ⟨url, outcome⟩ := p
      cases outcome <;> simp [fetchLoop, List.filterMap_cons, ih]
  · intro hempty hne
    rcases hfe : fetchLoop items with ⟨arts, errs⟩
    rw [hfe] at hempty hne
    simp only at hempty hne
    subst hempty
    simp [convertCore, hfe, errorDetails, List.isEmpty_iff, hne]
  · intro filename hne hpdf
    rcases hfe : fetchLoop items with ⟨arts, errs⟩
    rw [hfe] at hne hpdf
    simp only at hne hpdf
    simp [convertCore, hfe, List.isEmpty_iff, hne, hpdf]

/-- Witness for C1: a batch in which both URLs fail answers HTTP 500 with
one `- url: error` line per failure, and a mixed batch still converts the
successful article while reporting the failed URL. -/
theorem claim_C1_witness :
    convertCore [("u1", Except.error "boom"), ("u2", Except.error "bang")]
        (fun _ => Except.ok "f.pdf") =
      ConvertResponse.httpError 500 "All conversions failed:\n- u1: boom\n- u2: bang" ∧
    convertCore [("u1", Except.ok sampleArticle), ("u2", Except.error "bang")]
        (fun _ => Except.ok "f.pdf") =
      ConvertResponse.success "f.pdf" [("u1", sampleArticle)]
        (some [("u2", "bang")]) 2 1 1 := by
  constructor
  · have h := (claim_C1 [("u1", Except.error "boom"), ("u2", Except.error "bang")]
      (fun _ => Except.ok "f.pdf")).2.2.1 (by decide) (by decide)
    rw [h]; rfl
  · have h := (claim_C1 [("u1", Except.ok sampleArticle), ("u2", Except.error "bang")]
      (fun _ => Except.ok "f.pdf")).2.2.2 "f.pdf" (by decide) (by rfl)
    rw [h]; rfl

/-- Claim C6: `validate_cookies` classifies every input into exactly the
three statuses — not configured when no cookie string is provided, invalid
when `auth_token` or `ct0` is missing or its value too short, valid
otherwise — and the validate endpoint performs the live upstream check only
when the `live` parameter asks for it and only on format-valid cookies. -/
theorem claim_C6 (cookies : Option String) (liveParam : Bool)
    (liveOutcome : Except String (Nat × String)) :
    ((validate_cookies cookies).status = "not_configured" ∨
      (validate_cookies cookies).status = "invalid" ∨
      (validate_cookies cookies).status = "valid") ∧
    (cookies = none ↔ (validate_cookies cookies).status = "not_configured") ∧
    (∀ s, cookies = some s →
      ((validate_cookies cookies).status = "invalid" ↔
        ¬(requiredCookieOk (parseCookiePairs s) "auth_token" = true ∧
          requiredCookieOk (parseCookiePairs s) "ct0" = true))) ∧
    (∀ s, cookies = some s →
      ((validate_cookies cookies).status = "valid" ↔
        (requiredCookieOk (parseCookiePairs s) "auth_token" = true ∧
          requiredCookieOk (parseCookiePairs s) "ct0" = true))) ∧
    ((validate_cookies cookies).valid = true ↔
      (validate_cookies cookies).status = "valid") ∧
    ((validate_cookies_endpoint cookies liveParam liveOutcome).2 = true →
      liveParam = true ∧ (validate_cookies cookies).valid = true ∧ cookies ≠ none) := by
  refine ⟨?_, ?_, ?_, ?_, ?_, ?_⟩
  · cases cookies with
    | none => left; rfl
    | some s =>
      by_cases h1 : requiredCookieOk (parseCookiePairs s) "auth_token" <;>
        by_cases h2 : requiredCookieOk (parseCookiePairs s) "ct0" <;>
        simp [validate_cookies, h1, h2]
  · cases cookies with
    | none => simp [validate_cookies]
    | some s =>
      by_cases h1 : requiredCookieOk (parseCookiePairs s) "auth_token" <;>
        by_cases h2 : requiredCookieOk (parseCookiePairs s) "ct0" <;>
        simp [validate_cookies, h1, h2]
  · rintro s rfl
    by_cases h1 : requiredCookieOk (parseCookiePairs s) "auth_token" <;>
      by_cases h2 : requiredCookieOk (parseCookiePairs s) "ct0" <;>
      simp [validate_cookies, h1, h2]
  · rintro s rfl
    by_cases h1 : requiredCookieOk (parseCookiePairs s) "auth_token" <;>
      by_cases h2 : requiredCookieOk (parseCookiePairs s) "ct0" <;>
      simp [validate_cookies, h1, h2]
  · cases cookies with
    | none => simp [validate_cookies]
    | some s =>
      by_cases h1 : requiredCookieOk (parseCookiePairs s) "auth_token" <;>
        by_cases h2 : requiredCookieOk (parseCookiePairs s) "ct0" <;>
        simp [validate_cookies, h1, h2]
  · intro hlive
    simp only [validate_cookies_endpoint] at hlive
    by_cases hv : (validate_cookies cookies).valid
    · rw [if_neg (by simp [hv])] at hlive
      by_cases hl : liveParam && cookies.isSome
      · have hl' := hl
        simp only [Bool.and_eq_true] at hl'
        refine ⟨hl'.1, hv, ?_⟩
        intro hnone
        rw [hnone] at hl'
        exact Bool.false_ne_true hl'.2
      · rw [if_neg hl] at hlive
        exact absurd hlive (by simp)
    · rw [if_pos (by simp [hv])] at hlive
      exact absurd hlive (by simp)

/-- Witness for C6: with no cookie string the status is `not_configured`,
and on a concrete well-formed cookie string whose live check did run, the
endpoint conjunct yields that the live flag was set and the cookies were
format-valid and present. -/
theorem claim_C6_witness :
    (validate_cookies none).status = "not_configured" ∧
    (true = true ∧
      (validate_cookies
        (some "auth_token=aaaaaaaaaaaaaaaaaaaaaaaaaaaaaa; ct0=bbbbbbbbbbbbbbbbbbbbbbbbbbbbbb")).valid
          = true ∧
      (some "auth_token=aaaaaaaaaaaaaaaaaaaaaaaaaaaaaa; ct0=bbbbbbbbbbbbbbbbbbbbbbbbbbbbbb" ≠
        (none : Option String))) :=
  ⟨((claim_C6 none true (Except.error "x")).2.1).mp rfl,
   (claim_C6
      (some "auth_token=aaaaaaaaaaaaaaaaaaaaaaaaaaaaaa; ct0=bbbbbbbbbbbbbbbbbbbbbbbbbbbbbb")
      true (Except.ok (200, "alice"))).2.2.2.2.2 (by decide)⟩

/-- Counterexample to claim C7 as stated: the route set registered by this
`api.py` variant contains no cookie-save endpoint (`POST /api/cookies`) and
no cookie-status endpoint (`GET /api/cookies/status`); the only registered
rule under `/api/cookies` is the validate endpoint.  (The repository's
integration tests exercise those routes, but they belong to an earlier
variant of the module: the present one receives cookies per request from
client-side storage.) -/
theorem claim_C7_counterexample :
    (registeredRoutes.map Prod.fst).contains "/api/cookies" = false ∧
    (registeredRoutes.map Prod.fst).contains "/api/cookies/status" = false ∧
    ∀ r ∈ registeredRoutes,
      "/api/cookies".toList.isPrefixOf r.1.toList = true →
        r.1 = "/api/cookies/validate" := by
  refine ⟨rfl, rfl, ?_⟩
  decide

/-- Claim C7, amended: the registered routes are exactly the health check,
the synchronous and streaming convert endpoints, the cookie validate
endpoint, the streaming bookmark-fetch endpoint, the bookmark-convert
endpoint, the PDF download endpoint, and the page routes for the main UI
and the setup guide — with no cookie save or cookie status endpoint. -/
theorem claim_C7 :
    ("/api/health", ["GET"]) ∈ registeredRoutes ∧
    ("/api/convert", ["POST"]) ∈ registeredRoutes ∧
    ("/api/convert/stream", ["POST"]) ∈ registeredRoutes ∧
    ("/api/cookies/validate", ["POST"]) ∈ registeredRoutes ∧
    ("/api/bookmarks/fetch", ["POST"]) ∈ registeredRoutes ∧
    ("/api/bookmarks/convert", ["POST"]) ∈ registeredRoutes ∧
    ("/download/<filename>", ["GET"]) ∈ registeredRoutes ∧
    ("/", ["GET"]) ∈ registeredRoutes ∧
    ("/setup", ["GET"]) ∈ registeredRoutes ∧
    registeredRoutes.length = 9 ∧
    (∀ r ∈ registeredRoutes, r.1 ≠ "/api/cookies" ∧ r.1 ≠ "/api/cookies/status") := by
  refine ⟨?_, ?_, ?_, ?_, ?_, ?_, ?_, ?_, ?_, rfl, ?_⟩ <;> decide

/-- Claim C8: for every title, `_slugify_title` returns a non-empty string
of at most `MAX_SLUG_LENGTH` (80) characters drawn from lowercase ASCII
letters, digits and hyphens, with no leading or trailing hyphen and no two
consecutive hyphens; when the pipeline leaves nothing, the result is the
fallback `"article"`. -/
theorem claim_C8 (title : String) :
    slugify_title title ≠ "" ∧
    (slugify_title title).length ≤ MAX_SLUG_LENGTH ∧
    (∀ c ∈ (slugify_title title).toList, isSlugChar c = true) ∧
    (slugify_title title).toList.head? ≠ some '-' ∧
    (slugify_title title).toList.getLast? ≠ some '-' ∧
    (slugify_title title).toList.Chain' hyphenRel ∧
    (slugCore title = [] → slugify_title title = "article") := by
  obtain ⟨hm, hc, hh, hl, hlen⟩ := slugCore_props title
  by_cases hempty : (slugCore title).isEmpty
  · have he : slugify_title title = "article" := by
      simp [slugify_title, hempty]
    rw [he]
    refine ⟨by decide, by decide, by decide, by decide, by decide, ?_, fun _ => rfl⟩
    show List.Chain' hyphenRel ('a' :: 'r' :: 't' :: 'i' :: 'c' :: 'l' :: 'e' :: [])
    simp [List.chain'_cons, hyphenRel]
  · have he : slugify_title title = String.mk (slugCore title) := by
      simp [slugify_title, hempty]
    have htl : (slugify_title title).toList = slugCore title := by rw [he]; rfl
    have hlen' : (slugify_title title).length = (slugCore title).length := by
      rw [he]; rfl
    refine ⟨?_, ?_, ?_, ?_, ?_, ?_, ?_⟩
    · intro hcon
      apply hempty
      have : (slugify_title title).toList = [] := by rw [hcon]; rfl
      rw [htl] at this
      simp [this]
    · rw [hlen']; exact hlen
    · rw [htl]; exact hm
    · rw [htl]; intro hcon; exact hh '-' hcon rfl
    · rw [htl]; intro hcon; exact hl '-' hcon rfl
    · rw [htl]; exact hc
    · intro hcon
      rw [List.isEmpty_iff] at hempty
      exact absurd hcon hempty

/-- Witness for C8: a title of only punctuation falls back to `"article"`,
and a concrete title produces a non-empty slug. -/
theorem claim_C8_witness :
    slugify_title "!!!" = "article" ∧ slugify_title "Hello, World!" ≠ "" :=
  ⟨(claim_C8 "!!!").2.2.2.2.2.2 (by decide), (claim_C8 "Hello, World!").1⟩

/-- Every character of a sanitised filename is in `[A-Za-z0-9_.-]`, and the
first character is neither `.` nor `_`. -/
theorem secureCore_props (f : String) :
    (∀ c ∈ secureCore f, isFilenameKeep c = true) ∧
    (∀ x, (secureCore f).head? = some x → isDotUnderscore x = false) := by
  unfold secureCore
  constructor
  · intro c hc
    have h1 := mem_rstrip hc
    have h2 := (List.dropWhile_suffix _).sublist.mem h1
    exact List.of_mem_filter h2
  · intro x hx
    exact head?_dropWhile_false (head?_rstrip hx)

/-- Claim C10: `GET /download/<filename>` serves a file exactly when the
name is a fixed point of `secure_filename`, ends in `.pdf`, and exists in
the output directory; every other request gets HTTP 400 (unsafe or
non-PDF name) or 404 (missing file); and a served name contains no path
separator and is not a relative traversal component, so the served file
lies inside the output directory. -/
theorem claim_C10 (outputDir : String) (existsFile : String → Bool)
    (filename : String) :
    (download outputDir existsFile filename =
        PageResponse.sendFile outputDir filename ↔
      (secure_filename filename = filename ∧ endsWithPdf filename = true ∧
        existsFile filename = true)) ∧
    (∀ d n, download outputDir existsFile filename = PageResponse.sendFile d n →
      d = outputDir ∧ n = filename ∧ ('/' ∉ n.toList) ∧ n ≠ ".." ∧ n ≠ ".") ∧
    (endsWithPdf (secure_filename filename) = false ∨
        secure_filename filename ≠ filename →
      ∃ msg, download outputDir existsFile filename = PageResponse.badRequest msg) ∧
    (secure_filename filename = filename → endsWithPdf filename = true →
      existsFile filename = false →
      download outputDir existsFile filename =
        PageResponse.notFound "File not found") := by
  have hempty_pdf : endsWithPdf "" = false := by decide
  have hserved : ∀ d n,
      download outputDir existsFile filename = PageResponse.sendFile d n →
      d = outputDir ∧ n = filename ∧ secure_filename filename = filename ∧
        endsWithPdf filename = true ∧ existsFile filename = true := by
    intro d n h
    by_cases h1 : endsWithPdf (secure_filename filename)
    · by_cases h2 : secure_filename filename = filename
      · have h1' : endsWithPdf filename = true := by rw [← h2]; exact h1
        have h0' : filename ≠ "" := by
          intro hc
          rw [hc] at h1'
          rw [hempty_pdf] at h1'
          cases h1'
        by_cases h3 : existsFile filename
        · simp [download, h2, h1', h0', h3] at h
          exact ⟨h.1.symm, h.2.symm, h2, h1', h3⟩
        · exfalso
          simp [download, h2, h1', h0', h3] at h
      · exfalso
        simp [download, h1, h2] at h
    · exfalso
      simp [download, h1] at h
  have hsf : (secure_filename filename).toList = secureCore filename := rfl
  refine ⟨⟨?_, ?_⟩, ?_, ?_, ?_⟩
  · intro h
    exact (hserved _ _ h).2.2
  · rintro ⟨h2, h1, h3⟩
    have h0' : filename ≠ "" := by
      intro hc
      rw [hc] at h1
      rw [hempty_pdf] at h1
      cases h1
    simp [download, h2, h1, h0', h3]
  · intro d n h
    obtain ⟨hd, hn, h2, _, _⟩ := hserved d n h
    obtain ⟨hkeep, hhead⟩ := secureCore_props filename
    have hn_eq : n.toList = secureCore filename := by
      rw [hn]
      calc filename.toList = (secure_filename filename).toList := by rw [h2]
        _ = secureCore filename := hsf
    refine ⟨hd, hn, ?_, ?_, ?_⟩
    · intro hmem
      rw [hn_eq] at hmem
      have hk := hkeep '/' hmem
      cases hk
    · intro hc
      rw [hc] at hn_eq
      have hdu : isDotUnderscore '.' = false := hhead '.' (by rw [← hn_eq]; rfl)
      cases hdu
    · intro hc
      rw [hc] at hn_eq
      have hdu : isDotUnderscore '.' = false := hhead '.' (by rw [← hn_eq]; rfl)
      cases hdu
  · intro h
    rcases h with h | h
    · exact ⟨"Only PDF files can be downloaded", by simp [download, h]⟩
    · by_cases h1 : endsWithPdf (secure_filename filename)
      · exact ⟨"Invalid filename", by simp [download, h1, h]⟩
      · exact ⟨"Only PDF files can be downloaded", by simp [download, h1]⟩
  · intro h2 h1 h3
    have h0' : filename ≠ "" := by
      intro hc
      rw [hc] at h1
      rw [hempty_pdf] at h1
      cases h1
    simp [download, h2, h1, h0', h3]

/-- Witness for C10 at concrete inputs: a clean existing PDF name is
served, a traversal attempt is rejected with 400, and a missing file with
404. -/
theorem claim_C10_witness :
    download "/out" (fun _ => true) "report.pdf" =
      PageResponse.sendFile "/out" "report.pdf" ∧
    (∃ msg, download "/out" (fun _ => true) "../secret.pdf" =
      PageResponse.badRequest msg) ∧
    download "/out" (fun _ => false) "report.pdf" =
      PageResponse.notFound "File not found" :=
  ⟨(claim_C10 "/out" (fun _ => true) "report.pdf").1.mpr
      ⟨by decide, by decide, rfl⟩,
   (claim_C10 "/out" (fun _ => true) "../secret.pdf").2.2.1
      (Or.inr (by decide)),
   (claim_C10 "/out" (fun _ => false) "report.pdf").2.2.2
      (by decide) (by decide) rfl⟩

/-! ## Lemmas about the bookmark scrape loop -/

theorem addEntry_cases (s : ScrapeState) (oe : Option BookmarkEntry) :
    addEntry s oe = s ∨
    ∃ e, oe = some e ∧ e.tweet_id ∉ s.seen ∧
      addEntry s oe =
        { s with
            seen := s.seen ++ [e.tweet_id]
            bookmarks := s.bookmarks ++ [e]
            calls := s.calls ++ [(e, s.bookmarks.length + 1)] } := by
  cases oe with
  | none => left; rfl
  | some e =>
    by_cases hseen : e.tweet_id ∈ s.seen
    · left; simp [addEntry, hseen]
    · right
      exact ⟨e, rfl, hseen, by simp [addEntry, hseen]⟩

theorem foldl_addEntry_books_le (v : List (Option BookmarkEntry)) :
    ∀ s : ScrapeState, s.bookmarks.length ≤ (v.foldl addEntry s).bookmarks.length := by
  induction v with
  | nil => intro s; exact Nat.le_refl _
  | cons oe rest ih =>
    intro s
    rcases addEntry_cases s oe with h | ⟨e, _, _, h⟩
    · simpa [List.foldl_cons, h] using ih s
    · have h1 : s.bookmarks.length ≤ (addEntry s oe).bookmarks.length := by
        rw [h]; simp
      exact Nat.le_trans h1 (ih (addEntry s oe))

theorem foldl_addEntry_seen_mono (v : List (Option BookmarkEntry)) :
    ∀ s : ScrapeState, ∀ id ∈ s.seen, id ∈ (v.foldl addEntry s).seen := by
  induction v with
  | nil => intro s id h; exact h
  | cons oe rest ih =>
    intro s id h
    rcases addEntry_cases s oe with he | ⟨e, _, _, he⟩
    · rw [List.foldl_cons, he]; exact ih s id h
    · rw [List.foldl_cons, he]
      exact ih _ id (by simp [he]; exact Or.inl h)

theorem foldl_addEntry_covers (v : List (Option BookmarkEntry)) :
    ∀ s : ScrapeState, ∀ e, some e ∈ v → e.tweet_id ∈ (v.foldl addEntry s).seen := by
  induction v with
  | nil => intro s e h; cases h
  | cons oe rest ih =>
    intro s e h
    rcases List.mem_cons.mp h with h | h
    · have hadd : e.tweet_id ∈ (addEntry s oe).seen := by
        rw [← h]
        by_cases hseen : e.tweet_id ∈ s.seen
        · simp [addEntry, hseen]
        · simp [addEntry, hseen]
      rw [List.foldl_cons]
      exact foldl_addEntry_seen_mono rest _ _ hadd
    · rw [List.foldl_cons]
      exact ih _ e h

theorem foldl_addEntry_unchanged (v : List (Option BookmarkEntry)) :
    ∀ s : ScrapeState, (∀ e, some e ∈ v → e.tweet_id ∈ s.seen) →
      v.foldl addEntry s = s := by
  induction v with
  | nil => intro s _; rfl
  | cons oe rest ih =>
    intro s h
    have hoe : addEntry s oe = s := by
      cases oe with
      | none => rfl
      | some e =>
        have hmem := h e (List.mem_cons_self _ _)
        simp [addEntry, hmem]
    rw [List.foldl_cons, hoe]
    exact ih s (fun e he => h e (List.mem_cons_of_mem _ he))

theorem foldl_addEntry_grows (v : List (Option BookmarkEntry)) :
    ∀ s : ScrapeState, ∀ e, some e ∈ v → e.tweet_id ∉ s.seen →
      s.bookmarks.length < (v.foldl addEntry s).bookmarks.length := by
  induction v with
  | nil => intro s e h; cases h
  | cons oe rest ih =>
    intro s e h hid
    rcases List.mem_cons.mp h with h | h
    · have hadd : s.bookmarks.length < (addEntry s oe).bookmarks.length := by
        rw [← h]
        simp [addEntry, hid]
      rw [List.foldl_cons]
      exact Nat.lt_of_lt_of_le hadd (foldl_addEntry_books_le rest _)
    · rcases addEntry_cases s oe with he | ⟨e', _, _, he⟩
      · rw [List.foldl_cons, he]
        exact ih s e h hid
      · have hgrow : s.bookmarks.length < (addEntry s oe).bookmarks.length := by
          rw [he]; simp
        rw [List.foldl_cons]
        exact Nat.lt_of_lt_of_le hgrow (foldl_addEntry_books_le rest _)

theorem processRound_stable (v : List (Option BookmarkEntry)) (s : ScrapeState)
    (h : ∀ e, some e ∈ v → e.tweet_id ∈ s.seen) :
    processRound v s = { s with emptyScrolls := s.emptyScrolls + 1 } := by
  unfold processRound
  rw [foldl_addEntry_unchanged v s h]
  rw [if_neg (Nat.lt_irrefl _)]

theorem processRound_new (v : List (Option BookmarkEntry)) (s : ScrapeState)
    (e : BookmarkEntry) (he : some e ∈ v) (hid : e.tweet_id ∉ s.seen) :
    (processRound v s).emptyScrolls = 0 ∧
      s.bookmarks.length < (processRound v s).bookmarks.length := by
  have hg := foldl_addEntry_grows v s e he hid
  unfold processRound
  rw [if_pos hg]
  exact ⟨rfl, hg⟩

theorem processRound_empty_cases (v : List (Option BookmarkEntry)) (s : ScrapeState) :
    (processRound v s).emptyScrolls = 0 ∨
      (processRound v s).emptyScrolls = s.emptyScrolls + 1 := by
  unfold processRound
  by_cases h : s.bookmarks.length < (v.foldl addEntry s).bookmarks.length
  · rw [if_pos h]; left; rfl
  · rw [if_neg h]; right; rfl

theorem scrapeLoop_stop (rounds : Nat → List (Option BookmarkEntry))
    (i : Nat) (s : ScrapeState) (fuel : Nat)
    (h : MAX_EMPTY_SCROLLS ≤ s.emptyScrolls) :
    scrapeLoop rounds i s fuel = some s := by
  cases fuel with
  | zero => simp [scrapeLoop, h]
  | succ f => simp [scrapeLoop, h]

theorem scrapeLoop_some_empty (rounds : Nat → List (Option BookmarkEntry)) :
    ∀ (fuel i : Nat) (s s' : ScrapeState),
      s.emptyScrolls ≤ MAX_EMPTY_SCROLLS →
      scrapeLoop rounds i s fuel = some s' →
      s'.emptyScrolls = MAX_EMPTY_SCROLLS := by
  intro fuel
  induction fuel with
  | zero =>
    intro i s s' hle h
    by_cases hstop : MAX_EMPTY_SCROLLS ≤ s.emptyScrolls
    · simp only [scrapeLoop, if_pos hstop] at h
      cases h
      exact Nat.le_antisymm hle hstop
    · simp [scrapeLoop, hstop] at h
  | succ f ih =>
    intro i s s' hle h
    by_cases hstop : MAX_EMPTY_SCROLLS ≤ s.emptyScrolls
    · simp only [scrapeLoop, if_pos hstop] at h
      cases h
      exact Nat.le_antisymm hle hstop
    · simp only [scrapeLoop, if_neg hstop] at h
      have hnext : (processRound (rounds i) s).emptyScrolls ≤ MAX_EMPTY_SCROLLS := by
        rcases processRound_empty_cases (rounds i) s with hc | hc
        · rw [hc]; exact Nat.zero_le _
        · rw [hc]; exact Nat.succ_le_of_lt (Nat.lt_of_not_le hstop)
      exact ih (i + 1) _ s' hnext h

theorem scrapeLoop_stable_some (rounds : Nat → List (Option BookmarkEntry)) :
    ∀ (fuel i : Nat) (s : ScrapeState),
      (∀ j, i ≤ j → ∀ e, some e ∈ rounds j → e.tweet_id ∈ s.seen) →
      MAX_EMPTY_SCROLLS ≤ s.emptyScrolls + fuel →
      (scrapeLoop rounds i s fuel).isSome := by
  intro fuel
  induction fuel with
  | zero =>
    intro i s h hfuel
    simp only [Nat.add_zero] at hfuel
    rw [scrapeLoop_stop rounds i s 0 hfuel]
    rfl
  | succ f ih =>
    intro i s h hfuel
    by_cases hstop : MAX_EMPTY_SCROLLS ≤ s.emptyScrolls
    · rw [scrapeLoop_stop rounds i s (f + 1) hstop]; rfl
    · have hstable := processRound_stable (rounds i) s (h i (Nat.le_refl i))
      simp only [scrapeLoop, if_neg hstop]
      rw [hstable]
      apply ih (i + 1)
      · intro j hj e he
        exact h j (Nat.le_trans (Nat.le_succ i) hj) e he
      · show MAX_EMPTY_SCROLLS ≤ (s.emptyScrolls + 1) + f
        omega

theorem scrapeLoop_none_step (rounds : Nat → List (Option BookmarkEntry))
    (fuel i : Nat) (s : ScrapeState)
    (h : scrapeLoop rounds i s (fuel + 1) = none) :
    scrapeLoop rounds (i + 1) (processRound (rounds i) s) fuel = none := by
  by_cases hstop : MAX_EMPTY_SCROLLS ≤ s.emptyScrolls
  · rw [scrapeLoop_stop rounds i s (fuel + 1) hstop] at h
    cases h
  · simpa only [scrapeLoop, if_neg hstop] using h

theorem scrapeLoop_none_iter (rounds : Nat → List (Option BookmarkEntry)) :
    ∀ (n fuel i : Nat) (s : ScrapeState),
      scrapeLoop rounds i s (n + fuel) = none →
      scrapeLoop rounds (i + n) (iterRounds rounds i n s) fuel = none := by
  intro n
  induction n with
  | zero => intro fuel i s h; simpa [iterRounds] using h
  | succ m ih =>
    intro fuel i s h
    have h1 : scrapeLoop rounds i s ((m + fuel) + 1) = none := by
      have : m + 1 + fuel = (m + fuel) + 1 := by omega
      rwa [this] at h
    have h2 := scrapeLoop_none_step rounds (m + fuel) i s h1
    have h3 := ih fuel (i + 1) (processRound (rounds i) s) h2
    have hidx : i + 1 + m = i + (m + 1) := by omega
    have hiter : iterRounds rounds (i + 1) m (processRound (rounds i) s) =
        iterRounds rounds i (m + 1) s := rfl
    rwa [hidx, hiter] at h3

theorem iterRounds_seen_mono (rounds : Nat → List (Option BookmarkEntry)) :
    ∀ (n i : Nat) (s : ScrapeState) (id : String),
      id ∈ s.seen → id ∈ (iterRounds rounds i n s).seen := by
  intro n
  induction n with
  | zero => intro i s id h; exact h
  | succ m ih =>
    intro i s id h
    have hstep : id ∈ (processRound (rounds i) s).seen := by
      unfold processRound
      by_cases hc : s.bookmarks.length < ((rounds i).foldl addEntry s).bookmarks.length
      · rw [if_pos hc]
        exact foldl_addEntry_seen_mono (rounds i) s id h
      · rw [if_neg hc]
        exact foldl_addEntry_seen_mono (rounds i) s id h
    exact ih (i + 1) _ id hstep

theorem iterRounds_covers (rounds : Nat → List (Option BookmarkEntry)) :
    ∀ (n i : Nat) (s : ScrapeState) (k : Nat), i ≤ k → k < i + n →
      ∀ e, some e ∈ rounds k → e.tweet_id ∈ (iterRounds rounds i n s).seen := by
  intro n
  induction n with
  | zero => intro i s k hik hk; omega
  | succ m ih =>
    intro i s k hik hk e he
    by_cases hki : k = i
    · subst hki
      have hstep : e.tweet_id ∈ (processRound (rounds k) s).seen := by
        unfold processRound
        by_cases hc : s.bookmarks.length < ((rounds k).foldl addEntry s).bookmarks.length
        · rw [if_pos hc]
          exact foldl_addEntry_covers (rounds k) s e he
        · rw [if_neg hc]
          exact foldl_addEntry_covers (rounds k) s e he
      exact iterRounds_seen_mono rounds m (k + 1) _ _ hstep
    · have hik' : i + 1 ≤ k := by omega
      have hk' : k < (i + 1) + m := by omega
      exact ih (i + 1) (processRound (rounds i) s) k hik' hk' e he

/-- Claim C5: the scrape collection loop stops exactly when
`MAX_EMPTY_SCROLLS` (3) consecutive rounds yield no entry with an unseen
tweet id — the counter resets to zero on any round with a new entry and
increments otherwise, the loop halts as soon as it reaches 3 and the
stopping state has counter exactly 3, returning the entries collected so
far — and on any round sequence whose ids eventually all stem from the
first `N` rounds, the loop terminates within `N + 3` iterations. -/
theorem claim_C5 (rounds : Nat → List (Option BookmarkEntry)) :
    MAX_EMPTY_SCROLLS = 3 ∧
    (∀ v s, (∀ e, some e ∈ v → e.tweet_id ∈ s.seen) →
      processRound v s = { s with emptyScrolls := s.emptyScrolls + 1 }) ∧
    (∀ v s e, some e ∈ v → e.tweet_id ∉ s.seen →
      (processRound v s).emptyScrolls = 0 ∧
        s.bookmarks.length < (processRound v s).bookmarks.length) ∧
    (∀ i s fuel, MAX_EMPTY_SCROLLS ≤ s.emptyScrolls →
      scrapeLoop rounds i s fuel = some s) ∧
    (∀ fuel s', scrapeLoop rounds 0 initScrapeState fuel = some s' →
      s'.emptyScrolls = MAX_EMPTY_SCROLLS ∧ scrape rounds fuel = some s'.bookmarks) ∧
    (∀ N, (∀ j, N ≤ j → ∀ e, some e ∈ rounds j →
        ∃ k, k < N ∧ some e ∈ rounds k) →
      ∃ bs, scrape rounds (N + MAX_EMPTY_SCROLLS) = some bs) := by
  refine ⟨rfl, processRound_stable, ?_, scrapeLoop_stop rounds, ?_, ?_⟩
  · intro v s e he hid
    exact processRound_new v s e he hid
  · intro fuel s' h
    refine ⟨scrapeLoop_some_empty rounds fuel 0 initScrapeState s' (by decide) h, ?_⟩
    unfold scrape
    rw [h]
    rfl
  · intro N h
    by_cases hnone : scrapeLoop rounds 0 initScrapeState (N + MAX_EMPTY_SCROLLS) = none
    · exfalso
      have h2 := scrapeLoop_none_iter rounds N MAX_EMPTY_SCROLLS 0 initScrapeState hnone
      have h3 := scrapeLoop_stable_some rounds MAX_EMPTY_SCROLLS (0 + N)
        (iterRounds rounds 0 N initScrapeState) ?_ ?_
      · rw [h2] at h3
        cases h3
      · intro j hj e he
        obtain ⟨k, hkN, hk⟩ := h j (by omega) e he
        exact iterRounds_covers rounds N 0 initScrapeState k (Nat.zero_le k)
          (by omega) e hk
      · omega
    · obtain ⟨s', hs'⟩ := Option.ne_none_iff_exists'.mp hnone
      exact ⟨s'.bookmarks, by unfold scrape; rw [hs']; rfl⟩

/-- Witness for C5: on a concrete round sequence that repeats entries after
round 1, the loop stops with an empty-scroll counter of exactly 3 and
returns the two distinct entries; the stability hypothesis is discharged
for the concrete sequence. -/
theorem claim_C5_witness :
    (processRound [] initScrapeState).emptyScrolls = 0 + 1 ∧
    scrapeLoop sampleRounds 0 (⟨[], [], 3, []⟩ : ScrapeState) 5 =
      some (⟨[], [], 3, []⟩ : ScrapeState) ∧
    (∃ bs, scrape sampleRounds (1 + MAX_EMPTY_SCROLLS) = some bs) := by
  refine ⟨?_, ?_, ?_⟩
  · have h := (claim_C5 sampleRounds).2.1 [] initScrapeState (by intro e he; cases he)
    rw [h]
    rfl
  · exact (claim_C5 sampleRounds).2.2.2.1 0 _ 5 (by decide)
  · refine (claim_C5 sampleRounds).2.2.2.2.2 1 ?_
    intro j hj e he
    match j, hj with
    | m + 1, _ =>
      have he' : e = sampleEntry1 := by
        simpa [sampleRounds] using he
      exact ⟨0, Nat.zero_lt_one, by rw [he']; decide⟩

/-! ## Lemmas about the scrape invariant -/

theorem ScrapeInv_init : ScrapeInv initScrapeState := by
  refine ⟨List.nodup_nil, ?_, rfl⟩
  intro b h
  cases h

theorem ScrapeInv_addEntry (s : ScrapeState) (oe : Option BookmarkEntry)
    (h : ScrapeInv s) : ScrapeInv (addEntry s oe) := by
  rcases addEntry_cases s oe with he | ⟨e, _, hid, he⟩
  · rw [he]; exact h
  · rw [he]
    obtain ⟨hnodup, hseen, hcalls⟩ := h
    refine ⟨?_, ?_, ?_⟩
    · show ((s.bookmarks ++ [e]).map BookmarkEntry.tweet_id).Nodup
      rw [List.map_append, List.nodup_append]
      refine ⟨hnodup, List.nodup_singleton _, ?_⟩
      intro a ha hb
      obtain ⟨b, hbmem, hba⟩ := List.mem_map.mp ha
      have hae : a = e.tweet_id := by simpa using hb
      apply hid
      rw [← hae, ← hba]
      exact hseen b hbmem
    · intro b hb
      rcases List.mem_append.mp hb with hb | hb
      · exact List.mem_append.mpr (Or.inl (hseen b hb))
      · have hbe : b = e := by simpa using hb
        rw [hbe]
        exact List.mem_append.mpr (Or.inr (by simp))
    · show s.calls ++ [(e, s.bookmarks.length + 1)] =
        (s.bookmarks ++ [e]).zip (List.range' 1 (s.bookmarks ++ [e]).length)
      have hlen : s.bookmarks.length = (List.range' 1 s.bookmarks.length).length := by
        rw [List.length_range']
      rw [List.length_append]
      simp only [List.length_cons, List.length_nil]
      rw [List.range'_concat]
      rw [List.zip_append hlen]
      rw [← hcalls]
      simp [Nat.add_comm]

theorem ScrapeInv_foldl (v : List (Option BookmarkEntry)) :
    ∀ s : ScrapeState, ScrapeInv s → ScrapeInv (v.foldl addEntry s) := by
  induction v with
  | nil => intro s h; exact h
  | cons oe rest ih =>
    intro s h
    rw [List.foldl_cons]
    exact ih _ (ScrapeInv_addEntry s oe h)

theorem ScrapeInv_processRound (v : List (Option BookmarkEntry)) (s : ScrapeState)
    (h : ScrapeInv s) : ScrapeInv (processRound v s) := by
  have hf := ScrapeInv_foldl v s h
  unfold processRound
  by_cases hc : s.bookmarks.length < (v.foldl addEntry s).bookmarks.length
  · rw [if_pos hc]; exact hf
  · rw [if_neg hc]; exact hf

theorem ScrapeInv_loop (rounds : Nat → List (Option BookmarkEntry)) :
    ∀ (fuel i : Nat) (s s' : ScrapeState), ScrapeInv s →
      scrapeLoop rounds i s fuel = some s' → ScrapeInv s' := by
  intro fuel
  induction fuel with
  | zero =>
    intro i s s' hinv h
    by_cases hstop : MAX_EMPTY_SCROLLS ≤ s.emptyScrolls
    · simp only [scrapeLoop, if_pos hstop] at h
      cases h
      exact hinv
    · simp [scrapeLoop, hstop] at h
  | succ f ih =>
    intro i s s' hinv h
    by_cases hstop : MAX_EMPTY_SCROLLS ≤ s.emptyScrolls
    · simp only [scrapeLoop, if_pos hstop] at h
      cases h
      exact hinv
    · simp only [scrapeLoop, if_neg hstop] at h
      exact ih (i + 1) _ s' (ScrapeInv_processRound (rounds i) s hinv) h

/-- Claim C9: whenever the scrape loop returns, the collected entries have
pairwise-distinct tweet ids (an already-seen id is never appended), and the
`on_bookmark` call trace contains exactly one call per returned entry whose
running total is that entry's 1-based position in the returned list. -/
theorem claim_C9 (rounds : Nat → List (Option BookmarkEntry)) (fuel : Nat)
    (s' : ScrapeState)
    (h : scrapeLoop rounds 0 initScrapeState fuel = some s') :
    (s'.bookmarks.map BookmarkEntry.tweet_id).Nodup ∧
    s'.calls = s'.bookmarks.zip (List.range' 1 s'.bookmarks.length) := by
  obtain ⟨h1, _, h3⟩ := ScrapeInv_loop rounds fuel 0 initScrapeState s' ScrapeInv_init h
  exact ⟨h1, h3⟩

/-- Witness for C9 on the concrete round sequence: the run collects the two
distinct entries once each, and the callback trace is exactly
`[(entry1, 1), (entry2, 2)]`. -/
theorem claim_C9_witness :
    ((⟨[sampleEntry1, sampleEntry2], ["1", "2"], 3,
        [(sampleEntry1, 1), (sampleEntry2, 2)]⟩ : ScrapeState).bookmarks.map
          BookmarkEntry.tweet_id).Nodup ∧
    (⟨[sampleEntry1, sampleEntry2], ["1", "2"], 3,
        [(sampleEntry1, 1), (sampleEntry2, 2)]⟩ : ScrapeState).calls =
      (⟨[sampleEntry1, sampleEntry2], ["1", "2"], 3,
        [(sampleEntry1, 1), (sampleEntry2, 2)]⟩ : ScrapeState).bookmarks.zip
        (List.range' 1 (⟨[sampleEntry1, sampleEntry2], ["1", "2"], 3,
          [(sampleEntry1, 1), (sampleEntry2, 2)]⟩ : ScrapeState).bookmarks.length) :=
  claim_C9 sampleRounds 4
    (⟨[sampleEntry1, sampleEntry2], ["1", "2"], 3,
      [(sampleEntry1, 1), (sampleEntry2, 2)]⟩ : ScrapeState) (by decide)

/-! ## Lemmas about the browser pool -/

theorem live_length_le {s : PoolState} (h : PoolInv s) : s.live.length ≤ s.count := by
  obtain ⟨hnd, hcount, hlnd, hsub, _, _⟩ := h
  rw [hcount]
  exact (List.subperm_of_subset hlnd (fun b hb => hsub b hb)).length_le

theorem PoolInv_init (m : Nat) : PoolInv (initPool m) :=
  ⟨List.nodup_nil, rfl, List.nodup_nil,
   fun b hb => absurd hb (List.not_mem_nil b),
   fun b hb => absurd hb (List.not_mem_nil b), Nat.zero_le m⟩

theorem PoolInv_create {s : PoolState} (h : PoolInv s) (hlt : s.count < s.maxB) :
    PoolInv (createBrowser s).1 ∧ (createBrowser s).2 ∈ (createBrowser s).1.live ∧
      (createBrowser s).1.maxB = s.maxB := by
  obtain ⟨hnd, hcount, hlnd, hsub, hid, hle⟩ := h
  refine ⟨⟨?_, ?_, ?_, ?_, ?_, ?_⟩, ?_, rfl⟩
  · show (s.queue ++ s.nextId :: s.held).Nodup
    have hfresh : s.nextId ∉ s.queue ++ s.held := fun hc => Nat.lt_irrefl _ (hid _ hc)
    exact List.perm_middle.nodup_iff.mpr (List.nodup_cons.mpr ⟨hfresh, hnd⟩)
  · show s.count + 1 = (s.queue ++ s.nextId :: s.held).length
    simp only [List.length_append, List.length_cons] at hcount ⊢
    omega
  · show (s.nextId :: s.live).Nodup
    have hfresh : s.nextId ∉ s.live :=
      fun hc => Nat.lt_irrefl _ (hid _ (hsub _ hc))
    exact List.nodup_cons.mpr ⟨hfresh, hlnd⟩
  · show ∀ b ∈ s.nextId :: s.live, b ∈ s.queue ++ s.nextId :: s.held
    intro b hb
    rcases List.mem_cons.mp hb with hb | hb
    · rw [hb]
      exact List.mem_append.mpr (Or.inr (List.mem_cons_self _ _))
    · rcases List.mem_append.mp (hsub b hb) with hq | hh
      · exact List.mem_append.mpr (Or.inl hq)
      · exact List.mem_append.mpr (Or.inr (List.mem_cons_of_mem _ hh))
  · show ∀ b ∈ s.queue ++ s.nextId :: s.held, b < s.nextId + 1
    intro b hb
    rcases List.mem_append.mp hb with hq | hh
    · exact Nat.lt_succ_of_lt (hid b (List.mem_append.mpr (Or.inl hq)))
    · rcases List.mem_cons.mp hh with hb' | hh'
      · rw [hb']; exact Nat.lt_succ_self _
      · exact Nat.lt_succ_of_lt (hid b (List.mem_append.mpr (Or.inr hh')))
  · show s.count + 1 ≤ s.maxB
    omega
  · show s.nextId ∈ s.nextId :: s.live
    exact List.mem_cons_self _ _

theorem PoolInv_pop_dead {s : PoolState} {b : Nat} {rest : List Nat}
    (h : PoolInv s) (hq : s.queue = b :: rest) (hb : b ∉ s.live) :
    PoolInv { s with queue := rest, count := s.count - 1 } ∧
      s.count - 1 = (rest ++ s.held).length ∧ 1 ≤ s.count := by
  obtain ⟨hnd, hcount, hlnd, hsub, hid, hle⟩ := h
  rw [hq] at hnd hcount hsub hid
  simp only [List.cons_append] at hnd hcount hsub hid
  have hone : 1 ≤ s.count := by rw [hcount]; simp
  have hcount' : s.count - 1 = (rest ++ s.held).length := by
    rw [hcount]; simp
  refine ⟨⟨?_, hcount', ?_, ?_, ?_, ?_⟩, hcount', hone⟩
  · exact (List.nodup_cons.mp hnd).2
  · exact hlnd
  · intro x hx
    rcases List.mem_cons.mp (hsub x hx) with hxb | hx'
    · rw [hxb] at hx
      exact absurd hx hb
    · exact hx'
  · intro x hx
    exact hid x (List.mem_cons_of_mem _ hx)
  · show s.count - 1 ≤ s.maxB
    omega

theorem acquire_spec {s : PoolState} (h : PoolInv s) :
    (∀ s' b, acquire s = some (s', b) →
      PoolInv s' ∧ b ∈ s'.live ∧ s'.maxB = s.maxB ∧
        (b = s.nextId → s.live.length < s.maxB)) ∧
    (acquire s = none ↔ s.queue = [] ∧ s.count = s.maxB) := by
  have hinv := h
  obtain ⟨hnd, hcount, hlnd, hsub, hid, hle⟩ := h
  rcases hq : s.queue with _ | ⟨b₀, rest⟩
  · -- empty queue: afterPop on s itself
    by_cases hlt : s.count < s.maxB
    · have hcr := PoolInv_create hinv hlt
      constructor
      · intro s' b hacq
        have hacq' : some (createBrowser s) = some (s', b) := by
          simpa [acquire, hq, hlt] using hacq
        cases hacq'
        refine ⟨hcr.1, hcr.2.1, hcr.2.2, ?_⟩
        intro _
        exact Nat.lt_of_le_of_lt (live_length_le hinv) hlt
      · constructor
        · intro hnone
          exfalso
          simp [acquire, hq, hlt] at hnone
        · intro ⟨_, hcm⟩
          omega
    · constructor
      · intro s' b hacq
        exfalso
        simp [acquire, hq, hlt] at hacq
      · constructor
        · intro _
          exact ⟨rfl, Nat.le_antisymm hle (Nat.not_lt.mp hlt)⟩
        · intro _
          simp [acquire, hq, hlt]
  · -- nonempty queue
    by_cases hl : b₀ ∈ s.live
    · constructor
      · intro s' b hacq
        have hacq' : some ({ s with queue := rest, held := b₀ :: s.held }, b₀) =
            some (s', b) := by
          simpa [acquire, hq, hl] using hacq
        cases hacq'
        rw [hq] at hnd hcount hsub hid
        simp only [List.cons_append] at hnd hcount hsub hid
        have hperm : (rest ++ b₀ :: s.held).Perm (b₀ :: (rest ++ s.held)) :=
          List.perm_middle
        refine ⟨⟨?_, ?_, hlnd, ?_, ?_, hle⟩, hl, rfl, ?_⟩
        · exact hperm.nodup_iff.mpr hnd
        · rw [hperm.length_eq]
          simpa using hcount
        · intro x hx
          exact hperm.mem_iff.mpr (hsub x hx)
        · intro x hx
          exact hid x (hperm.mem_iff.mp hx)
        · intro hbn
          exfalso
          have : b₀ < s.nextId := hid b₀ (List.mem_cons_self _ _)
          omega
      · constructor
        · intro hnone
          exfalso
          simp [acquire, hq, hl] at hnone
        · intro ⟨hqq, _⟩
          cases hqq
    · -- popped browser is dead: decrement and create
      obtain ⟨hpop, hcount', hone⟩ := PoolInv_pop_dead hinv hq hl
      have hm1 : 1 ≤ s.maxB := Nat.le_trans hone hle
      have hlt : s.count - 1 < s.maxB := by omega
      have hcr := PoolInv_create hpop hlt
      have hlive_lt : s.live.length < s.maxB := by
        have hsub' : s.live ⊆ rest ++ s.held := by
          intro x hx
          have hx' := hsub x hx
          rw [hq] at hx'
          rcases List.mem_cons.mp hx' with hxb | hx''
          · rw [hxb] at hx
            exact absurd hx hl
          · exact hx''
        have := (List.subperm_of_subset hlnd hsub').length_le
        omega
      constructor
      · intro s' b hacq
        have hacq' :
            some (createBrowser { s with queue := rest, count := s.count - 1 }) =
              some (s', b) := by
          simpa [acquire, hq, hl, hlt] using hacq
        cases hacq'
        exact ⟨hcr.1, hcr.2.1, hcr.2.2, fun _ => hlive_lt⟩
      · constructor
        · intro hnone
          exfalso
          simp [acquire, hq, hl, hlt] at hnone
        · intro ⟨hqq, _⟩
          cases hqq

theorem release_spec {s : PoolState} (h : PoolInv s) (b : Nat) :
    PoolInv (release s b) ∧ (release s b).maxB = s.maxB ∧
      (release s b).nextId = s.nextId := by
  obtain ⟨hnd, hcount, hlnd, hsub, hid, hle⟩ := h
  by_cases hheld : b ∈ s.held
  · by_cases hlive : b ∈ s.live
    · by_cases hfull : s.queue.length < s.maxB
      · -- put back into the queue
        have hre : release s b =
            { s with held := s.held.erase b, queue := s.queue ++ [b] } := by
          simp [release, hheld, hlive, hfull]
        rw [hre]
        have hpermh : s.held.Perm (b :: s.held.erase b) := List.perm_cons_erase hheld
        have hperm : ((s.queue ++ [b]) ++ s.held.erase b).Perm (s.queue ++ s.held) := by
          rw [List.append_assoc]
          exact List.Perm.append_left s.queue (by simpa using hpermh.symm)
        refine ⟨⟨?_, ?_, hlnd, ?_, ?_, hle⟩, rfl, rfl⟩
        · exact hperm.nodup_iff.mpr hnd
        · rw [hperm.length_eq]
          exact hcount
        · intro x hx
          exact hperm.mem_iff.mpr (hsub x hx)
        · intro x hx
          exact hid x (hperm.mem_iff.mp hx)
      · -- queue full: close the browser
        have hre : release s b =
            { s with held := s.held.erase b, count := s.count - 1, live := s.live.erase b } := by
          simp [release, hheld, hlive, hfull]
        rw [hre]
        have hsubl : (s.queue ++ s.held.erase b).Sublist (s.queue ++ s.held) :=
          (s.held.erase_sublist b).append_left s.queue
        refine ⟨⟨?_, ?_, hlnd.erase b, ?_, ?_, ?_⟩, rfl, rfl⟩
        · exact hnd.sublist hsubl
        · show s.count - 1 = (s.queue ++ s.held.erase b).length
          rw [List.length_append, List.length_erase_of_mem hheld]
          rw [List.length_append] at hcount
          have : 1 ≤ s.held.length := List.length_pos.mpr (List.ne_nil_of_mem hheld)
          omega
        · intro x hx
          have hx' := (hlnd.mem_erase_iff).mp hx
          rcases List.mem_append.mp (hsub x hx'.2) with hxq | hxh
          · exact List.mem_append.mpr (Or.inl hxq)
          · exact List.mem_append.mpr (Or.inr ((List.mem_erase_of_ne hx'.1).mpr hxh))
        · intro x hx
          exact hid x (hsubl.mem hx)
        · show s.count - 1 ≤ s.maxB
          omega
    · -- disconnected browser: drop it
      have hre : release s b =
          { s with held := s.held.erase b, count := s.count - 1 } := by
        simp [release, hheld, hlive]
      rw [hre]
      have hsubl : (s.queue ++ s.held.erase b).Sublist (s.queue ++ s.held) :=
        (s.held.erase_sublist b).append_left s.queue
      refine ⟨⟨?_, ?_, hlnd, ?_, ?_, ?_⟩, rfl, rfl⟩
      · exact hnd.sublist hsubl
      · show s.count - 1 = (s.queue ++ s.held.erase b).length
        rw [List.length_append, List.length_erase_of_mem hheld]
        rw [List.length_append] at hcount
        have : 1 ≤ s.held.length := List.length_pos.mpr (List.ne_nil_of_mem hheld)
        omega
      · intro x hx
        have hxb : x ≠ b := fun hc => hlive (hc ▸ hx)
        rcases List.mem_append.mp (hsub x hx) with hxq | hxh
        · exact List.mem_append.mpr (Or.inl hxq)
        · exact List.mem_append.mpr (Or.inr ((List.mem_erase_of_ne hxb).mpr hxh))
      · intro x hx
        exact hid x (hsubl.mem hx)
      · show s.count - 1 ≤ s.maxB
        omega
  · -- not held: no-op
    have hre : release s b = s := by simp [release, hheld]
    rw [hre]
    exact ⟨⟨hnd, hcount, hlnd, hsub, hid, hle⟩, rfl, rfl⟩

theorem PoolInv_step {s : PoolState} (h : PoolInv s) (e : PoolEvent) :
    PoolInv (poolStep s e) ∧ (poolStep s e).maxB = s.maxB := by
  cases e with
  | acquireEv =>
    rcases hacq : acquire s with _ | ⟨s', b⟩
    · have heq : poolStep s PoolEvent.acquireEv = s := by simp [poolStep, hacq]
      rw [heq]
      exact ⟨h, rfl⟩
    · have heq : poolStep s PoolEvent.acquireEv = s' := by simp [poolStep, hacq]
      rw [heq]
      have hspec := (acquire_spec h).1 s' b hacq
      exact ⟨hspec.1, hspec.2.2.1⟩
  | releaseEv b =>
    have hspec := release_spec h b
    exact ⟨hspec.1, hspec.2.1⟩
  | disconnectEv b =>
    obtain ⟨hnd, hcount, hlnd, hsub, hid, hle⟩ := h
    refine ⟨⟨hnd, hcount, hlnd.erase b, ?_, hid, hle⟩, rfl⟩
    intro x hx
    exact hsub x ((s.live.erase_sublist b).mem hx)

theorem PoolInv_run (m : Nat) (events : List PoolEvent) :
    PoolInv (runPool m events) ∧ (runPool m events).maxB = m := by
  suffices hgen : ∀ (evs : List PoolEvent) (s : PoolState), PoolInv s →
      PoolInv (evs.foldl poolStep s) ∧ (evs.foldl poolStep s).maxB = s.maxB by
    exact hgen events (initPool m) (PoolInv_init m)
  intro evs
  induction evs with
  | nil => intro s hs; exact ⟨hs, rfl⟩
  | cons e rest ih =>
    intro s hs
    rw [List.foldl_cons]
    have hstep := PoolInv_step hs e
    have hrest := ih (poolStep s e) hstep.1
    exact ⟨hrest.1, hrest.2.trans hstep.2⟩

theorem release_unblocks {s : PoolState} (h : PoolInv s) (b : Nat)
    (hq : s.queue = []) (hc : s.count = s.maxB) (hb : b ∈ s.held) :
    acquire (release s b) ≠ none := by
  have hm1 : 1 ≤ s.maxB := by
    obtain ⟨_, hcount, _, _, _, hle⟩ := h
    rw [hq] at hcount
    simp only [List.nil_append] at hcount
    have : 1 ≤ s.held.length := List.length_pos.mpr (List.ne_nil_of_mem hb)
    omega
  have hrel := release_spec h b
  intro hnone
  have hiff := (acquire_spec hrel.1).2
  obtain ⟨hq', hc'⟩ := hiff.mp hnone
  by_cases hlive : b ∈ s.live
  · have hfull : s.queue.length < s.maxB := by
      rw [hq]
      simpa using hm1
    have hre : release s b =
        { s with held := s.held.erase b, queue := s.queue ++ [b] } := by
      simp [release, hb, hlive, hfull]
    rw [hre, hq] at hq'
    cases hq'
  · have hre : release s b =
        { s with held := s.held.erase b, count := s.count - 1 } := by
      simp [release, hb, hlive]
    rw [hre] at hc'
    simp only at hc'
    omega

/-- Claim C4: over every event sequence the pool keeps the number of live
(connected, unclosed) browsers at or below `max_browsers`; a successful
acquire hands out a connected browser and preserves the invariant; a
browser is freshly created only while the live count is below the maximum;
acquire blocks exactly when the queue is empty and the browser count is at
capacity, and a release always unblocks it; releasing a connected browser
appends it to a non-full queue, and closes it (removing it from the live
set) when the queue is full. -/
theorem claim_C4 (m : Nat) (events : List PoolEvent) :
    (runPool m events).live.length ≤ m ∧
    (∀ s s' b, PoolInv s → acquire s = some (s', b) →
      PoolInv s' ∧ b ∈ s'.live ∧ (b = s.nextId → s.live.length < s.maxB)) ∧
    (∀ s, PoolInv s → (acquire s = none ↔ s.queue = [] ∧ s.count = s.maxB)) ∧
    (∀ s b, PoolInv s → b ∈ s.held → b ∈ s.live → s.queue.length < s.maxB →
      release s b = { s with held := s.held.erase b, queue := s.queue ++ [b] }) ∧
    (∀ s b, PoolInv s → b ∈ s.held → b ∈ s.live → ¬s.queue.length < s.maxB →
      b ∉ (release s b).live) ∧
    (∀ s b, PoolInv s → s.queue = [] → s.count = s.maxB → b ∈ s.held →
      acquire (release s b) ≠ none) := by
  refine ⟨?_, ?_, ?_, ?_, ?_, ?_⟩
  · obtain ⟨hinv, hmax⟩ := PoolInv_run m events
    have h1 := live_length_le hinv
    have h2 := hinv.2.2.2.2.2
    omega
  · intro s s' b hs hacq
    have hspec := (acquire_spec hs).1 s' b hacq
    exact ⟨hspec.1, hspec.2.1, hspec.2.2.2⟩
  · intro s hs
    exact (acquire_spec hs).2
  · intro s b hs hheld hlive hfull
    simp [release, hheld, hlive, hfull]
  · intro s b hs hheld hlive hfull
    have hre : release s b =
        { s with held := s.held.erase b, count := s.count - 1, live := s.live.erase b } := by
      simp [release, hheld, hlive, hfull]
    rw [hre]
    intro hmem
    have := (hs.2.2.1.mem_erase_iff).mp hmem
    exact this.1 rfl
  · intro s b hs hq hc hb
    exact release_unblocks hs b hq hc hb

/-- Witness for C4: a concrete run with three acquires on a two-browser
pool keeps at most two live browsers, and at the concrete full state with
one held browser and capacity one, acquire blocks and a release unblocks
it. -/
theorem claim_C4_witness :
    (runPool 2 [PoolEvent.acquireEv, PoolEvent.acquireEv,
        PoolEvent.acquireEv]).live.length ≤ 2 ∧
    (acquire (⟨1, [], 1, [0], [0], 1⟩ : PoolState) = none ↔
      (⟨1, [], 1, [0], [0], 1⟩ : PoolState).queue = [] ∧
        (⟨1, [], 1, [0], [0], 1⟩ : PoolState).count =
          (⟨1, [], 1, [0], [0], 1⟩ : PoolState).maxB) ∧
    acquire (release (⟨1, [], 1, [0], [0], 1⟩ : PoolState) 0) ≠ none := by
  refine ⟨?_, ?_, ?_⟩
  · exact (claim_C4 2 [PoolEvent.acquireEv, PoolEvent.acquireEv,
      PoolEvent.acquireEv]).1
  · exact (claim_C4 1 []).2.2.1 (⟨1, [], 1, [0], [0], 1⟩ : PoolState)
      (by refine ⟨?_, ?_, ?_, ?_, ?_, ?_⟩ <;> decide)
  · exact (claim_C4 1 []).2.2.2.2.2 (⟨1, [], 1, [0], [0], 1⟩ : PoolState) 0
      (by refine ⟨?_, ?_, ?_, ?_, ?_, ?_⟩ <;> decide) rfl rfl (by decide)

end Articlenator
